import Mathlib

/-!
Shallow embedding of the slack-poll core (src/src/Poll.ts) and of the
helper functions it uses, together with proofs of the spec's claims.

JavaScript strings are modelled as `List Char` (`JStr`), so that the
string operations the code uses (`split(",")`, `join(",")`, `includes`,
`indexOf`, `splice`, `toLowerCase`) become plain list functions.
-/

namespace SlackPoll

/-- A JavaScript string, modelled as a list of characters. -/
abbrev JStr := List Char

/-- Literal helper: the character list of a Lean string literal. -/
def str (s : String) : JStr := s.data

/-- JS `s.split(",")` (split on every comma, keeping empty parts). -/
def splitComma (s : JStr) : List JStr := s.splitOn ','

/-- JS `parts.join(",")`. -/
def joinComma (l : List JStr) : JStr := List.intercalate [','] l

/-- JS `s.includes(v)`: `v` occurs as a contiguous substring of `s`. -/
def jsIncludes (s v : JStr) : Bool := decide (v <:+: s)

/-- JS `arr.indexOf(x)`: index of the first occurrence, `-1` if absent. -/
def jsIndexOf : List JStr → JStr → Int
  | [], _ => -1
  | a :: rest, x =>
    if a = x then 0
    else
      let r := jsIndexOf rest x
      if r = -1 then -1 else r + 1

/-- Remove the element at position `n` (identity when out of range). -/
def removeAt : List JStr → Nat → List JStr
  | [], _ => []
  | _ :: rest, 0 => rest
  | v :: rest, n + 1 => v :: removeAt rest n

/-- JS `arr.splice(i, 1)` for a (possibly negative) index. -/
def jsSpliceAt (l : List JStr) (i : Int) : List JStr :=
  if i < 0 then l else removeAt l i.toNat

/-- JS `s.toLowerCase()` (ASCII-adequate). -/
def jsToLower (s : JStr) : JStr := s.map Char.toLower

/-- Remove the first occurrence of `u` (reference form of indexOf+splice). -/
def eraseFirst (u : JStr) : List JStr → List JStr
  | [] => []
  | v :: rest => if v = u then rest else v :: eraseFirst u rest

/-- Sub-elements of an `actions` block: vote buttons and the static
select control menu (`@slack/types` `Button` / `StaticSelect`). -/
inductive ActionElem where
  | button (text : JStr) (value : JStr)
  | staticSelect (placeholder : JStr) (options : List (JStr × JStr))
deriving DecidableEq

/-- The block kinds the protocol uses (`@slack/types` `KnownBlock`):
a mrkdwn section, a context line, an actions block, and a divider. -/
inductive KnownBlock where
  | sectionBlock (text : JStr)
  | contextBlock (text : JStr)
  | actions (elements : List ActionElem)
  | divider
deriving DecidableEq

open KnownBlock ActionElem

/-- Reading `.text.text` of a block cast to `SectionBlock`; `none`
models the runtime `TypeError` raised on any other block shape. -/
def sectionText : Option KnownBlock → Option JStr
  | some (sectionBlock t) => some t
  | _ => none

/-- Method `Poll.getDividerId`: index of the last `divider` block, `-1` if none
(the TS code scans from the end for the first divider). -/
def getDividerId : List KnownBlock → Int
  | [] => -1
  | b :: rest =>
    let r := getDividerId rest
    if r ≥ 0 then r + 1
    else if b = divider then 0 else -1

/-- The in-memory `Poll` object: the block sequence plus the three flags
the constructor derives from it. -/
structure Poll where
  message : List KnownBlock
  multiple : Bool
  anonymous : Bool
  isLocked : Bool
deriving DecidableEq

/-- The `Poll` constructor (`new Poll(message)`): derives `multiple` and
`anonymous` by substring search on the title text and `isLocked` from
the block after the last divider; `none` models the runtime error when
a block read as a section is not section-shaped. -/
def decode (message : List KnownBlock) : Option Poll := do
  let title ← sectionText message.head?
  let multiple := jsIncludes title (str "(Multiple Answers)")
  let anonymous := jsIncludes title (str "(Anonymous)")
  let isLocked ←
    if (message.length : Int) - 1 ≠ getDividerId message then do
      let t ← sectionText (message.get? (getDividerId message + 1).toNat)
      pure (decide (t = str ":lock:"))
    else
      pure false
  pure ⟨message, multiple, anonymous, isLocked⟩

/-- JS `Array.slice` index normalization (negative counts from the end,
both ends clamped to the array length). -/
def jsIdx (len : Nat) (i : Int) : Nat :=
  if i < 0 then ((len : Int) + i).toNat else min i.toNat len

/-- JS `arr.slice(s, e)`. -/
def jsSlice (l : List KnownBlock) (s e : Int) : List KnownBlock :=
  (l.take (jsIdx l.length e)).drop (jsIdx l.length s)

/-- Decimal rendering of a JS number arising from `.length`. -/
def natToStr (n : Nat) : JStr := (Nat.repr n).data

/-- The inner loop of `Poll.processButtons`: apply the callback to each
button of an actions block in order; a `true` return breaks the inner
loop, leaving the remaining elements untouched. The callback result is
the new `button.value` plus the break flag. -/
def processElems (f : JStr → JStr → JStr × Bool) : List ActionElem → List ActionElem
  | [] => []
  | button t v :: rest =>
    let r := f t v
    if r.2 then button t r.1 :: rest else button t r.1 :: processElems f rest
  | e :: rest => e :: processElems f rest

/-- Apply the button callback inside one block (non-`actions` blocks are
skipped by `processButtons`). -/
def processBlock (f : JStr → JStr → JStr × Bool) : KnownBlock → KnownBlock
  | actions es => actions (processElems f es)
  | b => b

/-- Method `Poll.processButtons` with `loopEnd = message.length` (the form used
by `vote` and `resetVote`): the loop starts at index 2, so the first two
blocks are never touched. -/
def processAllButtons (f : JStr → JStr → JStr × Bool) (msg : List KnownBlock) :
    List KnownBlock :=
  match msg with
  | b0 :: b1 :: rest => b0 :: b1 :: rest.map (processBlock f)
  | m => m

/-- The button callback of `Poll.vote` (via `getVotesAndUserIndex`). -/
def voteCb (multiple : Bool) (buttonText userId : JStr) (text value : JStr) :
    JStr × Bool :=
  let votes := splitComma value
  let userIdIndex := jsIndexOf votes userId
  let votes :=
    if multiple = false ∧ userIdIndex > -1 ∧ text ≠ buttonText then
      jsSpliceAt votes userIdIndex
    else if text = buttonText ∧ userIdIndex = -1 then
      votes ++ [userId]
    else votes
  (joinComma votes, false)

/-- The button callback of `Poll.resetVote`: no rewrite at all when the
user is absent, else splice the user out and break iff single-choice. -/
def resetCb (multiple : Bool) (userId : JStr) (_text value : JStr) : JStr × Bool :=
  let votes := splitComma value
  let userIdIndex := jsIndexOf votes userId
  if userIdIndex = -1 then (value, false)
  else (joinComma (jsSpliceAt votes userIdIndex), !multiple)

/-- The `(text, value)` pairs of the buttons of one block. -/
def blockButtons : KnownBlock → List (JStr × JStr)
  | actions es =>
    es.filterMap fun e =>
      match e with
      | button t v => some (t, v)
      | _ => none
  | _ => []

/-- Method `Poll.processButtons` with the collecting callback of
`generateResults` (`loopEnd = dividerId`): the `(text, value)` pairs of
every button in blocks `2 ≤ i < loopEnd`, in order. -/
def collectVotesPairs (msg : List KnownBlock) (loopEnd : Int) : List (JStr × JStr) :=
  (((msg.take loopEnd.toNat).drop 2).map blockButtons).flatten

/-- Distinct keys of the JS `votes` object in first-insertion order
(reassigning an existing key does not move it). -/
def firstKeysAux (seen : List JStr) : List (JStr × JStr) → List JStr
  | [] => []
  | (k, _) :: rest =>
    if k ∈ seen then firstKeysAux seen rest else k :: firstKeysAux (k :: seen) rest

/-- Numeric value of a digit string, for the JS array-index reading of
an object key. -/
def numVal (s : JStr) : Nat := s.foldl (fun n c => 10 * n + (c.toNat - 48)) 0

/-- Whether a JS object key is an array index: the canonical decimal
form (all digits, no leading zero except for the key `0` itself) of an
integer below 2^32 - 1. -/
def isArrayIndex : JStr → Bool
  | [] => false
  | c :: rest =>
    (c :: rest).all Char.isDigit && (rest.isEmpty || decide (c ≠ '0')) &&
      numVal (c :: rest) ≤ 4294967294

/-- Value for inserting a key into a list sorted by numeric value. -/
def insertIdx (k : JStr) : List JStr → List JStr
  | [] => [k]
  | k' :: rest =>
    if numVal k ≤ numVal k' then k :: k' :: rest else k' :: insertIdx k rest

/-- Value for sorting keys by ascending numeric value (insertion sort;
distinct canonical digit strings have distinct values). -/
def sortIdx : List JStr → List JStr
  | [] => []
  | k :: rest => insertIdx k (sortIdx rest)

/-- Order in which JS `for-in` enumerates a key list: array-index keys
first in ascending numeric order, then the remaining string keys in
insertion order. -/
def jsEnumKeys (ks : List JStr) : List JStr :=
  sortIdx (ks.filter isArrayIndex) ++ ks.filter fun k => !(isArrayIndex k)

/-- The keys of the JS `votes` object, in `for-in` iteration order:
array-index keys first in ascending numeric order, then the other keys
in first-insertion order. -/
def objKeys (pairs : List (JStr × JStr)) : List JStr :=
  jsEnumKeys (firstKeysAux [] pairs)

/-- First value bound to `k` in an association list. -/
def lookupFirst : List (JStr × JStr) → JStr → JStr
  | [], _ => []
  | (k, v) :: rest, key => if k = key then v else lookupFirst rest key

/-- Value `votes[key]` after all assignments: the last value written for the
key. -/
def lookupLast (pairs : List (JStr × JStr)) (key : JStr) : JStr :=
  lookupFirst pairs.reverse key

/-- Method `Poll.buildVoteTally`: drop the placeholder element, skip empty
voter lists, and render `*<count>* <key> » <names>` where names are the
`<@id>` mentions joined with commas unless the poll is anonymous and
identities are not revealed, in which case the literal `~HIDDEN~`. -/
def buildVoteTally (anonymous overrideAnon : Bool) (value key : JStr) :
    Option KnownBlock :=
  let users := (splitComma value).drop 1
  if users = [] then none
  else
    let names :=
      if !anonymous || overrideAnon then
        joinComma (users.map fun k => str "<@" ++ k ++ str ">")
      else str "~HIDDEN~"
    some (sectionBlock (str "*" ++ natToStr users.length ++ str "* " ++ key
      ++ str " » " ++ names))

/-- Method `Poll.generateResults`: tally all buttons before the divider into
the `votes` object, build one section per non-empty key, and prepend
the `:lock:` marker when the poll is locked. -/
def generateResults (p : Poll) (overrideAnon : Bool) : List KnownBlock :=
  let pairs := collectVotesPairs p.message (getDividerId p.message)
  let sections := (objKeys pairs).filterMap fun k =>
    buildVoteTally p.anonymous overrideAnon (lookupLast pairs k) k
  if p.isLocked then sectionBlock (str ":lock:") :: sections else sections

/-- Method `Poll.generateVoteResults`: throw away everything after the divider
and append freshly generated results. -/
def generateVoteResults (p : Poll) : Poll :=
  { p with
    message := jsSlice p.message 0 (getDividerId p.message + 1)
      ++ generateResults p false }

/-- Method `Poll.vote`: a no-op on locked polls, otherwise run the vote
callback over every button and regenerate the results. -/
def vote (p : Poll) (buttonText userId : JStr) : Poll :=
  if p.isLocked then p
  else
    generateVoteResults
      { p with message := processAllButtons (voteCb p.multiple buttonText userId) p.message }

/-- Method `Poll.resetVote` (no lock check in the method itself). -/
def resetVote (p : Poll) (userId : JStr) : Poll :=
  generateVoteResults
    { p with message := processAllButtons (resetCb p.multiple userId) p.message }

/-- Method `Poll.getDynamicSelect`; `buildSelectOption` (PollHelpers.ts, not in
the sources) is modelled from the spec as a `(label, action code)` pair. -/
def getDynamicSelect (p : Poll) : List KnownBlock :=
  [actions [staticSelect (str "Poll Options")
    [(str "Reset your vote", str "reset"),
     (if p.isLocked then (str ":unlock: Unlock poll", str "unlock")
      else (str ":lock: Lock poll", str "lock")),
     (str "Move to bottom", str "bottom"),
     (str "Delete poll", str "delete")]]]

/-- Method `Poll.lockPoll`: set the flag, regenerate results (now carrying the
lock marker) and swap the control menu for the unlock variant. -/
def lockPoll (p : Poll) : Poll :=
  let q := generateVoteResults { p with isLocked := true }
  { q with
    message := jsSlice q.message 0 (getDividerId q.message - 1)
      ++ getDynamicSelect q
      ++ jsSlice q.message (getDividerId q.message) q.message.length }

/-- Method `Poll.unlockpoll`. -/
def unlockpoll (p : Poll) : Poll :=
  let q := { p with isLocked := false }
  { q with
    message := jsSlice q.message 0 (getDividerId q.message - 1)
      ++ getDynamicSelect q ++ [divider]
      ++ jsSlice q.message (getDividerId q.message + 2) q.message.length }

/-- Modelled from the spec: `PollHelpers.buildSectionBlock` (the file
PollHelpers.ts is not among the sources) — a mrkdwn section block. -/
def buildSectionBlock (t : JStr) : KnownBlock := sectionBlock t

/-- Modelled from the spec: `PollHelpers.buildContextBlock` (missing
PollHelpers.ts) — a context block with one text element. -/
def buildContextBlock (t : JStr) : KnownBlock := contextBlock t

/-- Modelled from the spec: `PollHelpers.appendIfMatching` (missing
PollHelpers.ts) — the marker suffix when the flag token is present
among token 0 / token 1, case-insensitively, else empty. -/
def appendIfMatching (optionArray : List JStr) (value suffixStr : JStr) : JStr :=
  if jsToLower (optionArray.getD 0 []) = value
      ∨ jsToLower (optionArray.getD 1 []) = value then
    suffixStr
  else []

/-- JS `s.replace(pat, rep)`: replace the first occurrence only. -/
def jsReplaceFirst (pat rep : JStr) : JStr → JStr
  | [] => if pat = [] then rep else []
  | c :: rest =>
    if pat ≠ [] ∧ pat.isPrefixOf (c :: rest) then rep ++ rest.drop (pat.length - 1)
    else c :: jsReplaceFirst pat rep rest

/-- The label rewriting of the builder: `&amp;`→`+`,
`&lt;`→`"greater than "`, `&gt;`→`"less than "`, in that order. -/
def fixLabel (s : JStr) : JStr :=
  jsReplaceFirst (str "&gt;") (str "less than ")
    (jsReplaceFirst (str "&lt;") (str "greater than ")
      (jsReplaceFirst (str "&amp;") (str "+") s))

/-- Groups of at most five, in order. -/
def chunks5 : List ActionElem → List (List ActionElem)
  | [] => []
  | [a] => [[a]]
  | [a, b] => [[a, b]]
  | [a, b, c] => [[a, b, c]]
  | [a, b, c, d] => [[a, b, c, d]]
  | a :: b :: c :: d :: e :: rest => [a, b, c, d, e] :: chunks5 rest

/-- Modelled from the spec: `PollHelpers.buildVoteOptions` (missing
PollHelpers.ts) — one button per label from `parameters[start..]`, with
the escape rewriting applied, value initialized to the placeholder
`" "`, grouped into actions blocks of at most 5 buttons. -/
def buildVoteOptions (parameters : List JStr) (start : Nat) : List KnownBlock :=
  (chunks5 ((parameters.drop start).map fun l => button (fixLabel l) (str " "))).map
    actions

/-- Token list of command line 0 in the builder: line 0 split on the
space character, padded with a synthetic `" "` token when it has
exactly one token. -/
def tokensOf (parameters : List JStr) : List JStr :=
  let oa := (parameters.getD 0 []).splitOn ' '
  if oa.length = 1 then oa ++ [str " "] else oa

/-- Static method `Poll.slashCreate`, producing the initial block sequence. When the
flag branch is taken and `parameters[1]` is absent, JS reads
`undefined` and `+=` coerces it to the string `"undefined"`. -/
def slashCreateMsg (author : JStr) (parameters : List JStr) : List KnownBlock :=
  let optionArray := tokensOf parameters
  let mrkdwnValue :=
    if jsToLower (optionArray.getD 0 []) = str "multiple"
        ∨ jsToLower (optionArray.getD 0 []) = str "anon" then
      (parameters.getD 1 (str "undefined"))
        ++ appendIfMatching optionArray (str "multiple") (str " *(Multiple Answers)* ")
        ++ appendIfMatching optionArray (str "anon") (str " *(Anonymous)* ")
    else parameters.getD 0 []
  let titleBlock := buildSectionBlock mrkdwnValue
  let start := if mrkdwnValue = parameters.getD 0 [] then 1 else 2
  let actionBlocks := buildVoteOptions parameters start
    ++ [actions [staticSelect (str "Poll Options")
         [(str "Reset your vote", str "reset"),
          (str ":lock: Lock poll", str "lock"),
          (str "Move to bottom", str "bottom"),
          (str "Delete poll", str "delete")]]]
  titleBlock :: buildContextBlock (str "Asked by: " ++ author) :: (actionBlocks ++ [divider])

/-- Static method `Poll.slashCreate` ends with `new Poll(message)`, i.e. a decode of
the freshly built block sequence. -/
def slashCreate (author : JStr) (parameters : List JStr) : Option Poll :=
  decode (slashCreateMsg author parameters)

/-- Collaborator entry point `applyVote` (§6): decode, vote, return the
new block sequence. -/
def applyVote (blocks : List KnownBlock) (optionLabel userId : JStr) :
    Option (List KnownBlock) :=
  (decode blocks).map fun p => (vote p optionLabel userId).message

/-- Collaborator entry point `applyReset` (§6). -/
def applyReset (blocks : List KnownBlock) (userId : JStr) :
    Option (List KnownBlock) :=
  (decode blocks).map fun p => (resetVote p userId).message

/-- Collaborator entry point `applyLock` (§6). -/
def applyLock (blocks : List KnownBlock) : Option (List KnownBlock) :=
  (decode blocks).map fun p => (lockPoll p).message

/-! Standard-form messages: every block sequence the protocol itself
produces has the layout Title, AuthorContext, option groups, control
menu, divider, result sections. The voter list of an option is stored
as the votes string `placeholder :: voters` joined with commas. -/

/-- The reserved placeholder: first element of every votes string. -/
def sp : JStr := str " "

/-- The stored votes string of an option with voter list `vs`. -/
def voteValue (vs : List JStr) : JStr := joinComma (sp :: vs)

/-- The button of an option `(label, voters)`. -/
def optionButton (o : JStr × List JStr) : ActionElem := button o.1 (voteValue o.2)

/-- An option group block. -/
def optionGroup (g : List (JStr × List JStr)) : KnownBlock := actions (g.map optionButton)

/-- The control menu block as `slashCreate` builds it. -/
def controlMenu : KnownBlock :=
  actions [staticSelect (str "Poll Options")
    [(str "Reset your vote", str "reset"),
     (str ":lock: Lock poll", str "lock"),
     (str "Move to bottom", str "bottom"),
     (str "Delete poll", str "delete")]]

/-- A standard-form poll message: title, author context, option groups,
control menu, divider, then the result region `rs`. -/
def stdMsg (t a : JStr) (gs : List (List (JStr × List JStr))) (rs : List KnownBlock) :
    List KnownBlock :=
  sectionBlock t :: contextBlock a :: (gs.map optionGroup ++ [controlMenu, divider] ++ rs)

/-- Recognize a section block. -/
def isSectionB : KnownBlock → Bool
  | sectionBlock _ => true
  | _ => false

/-- The result region contains only section blocks (as the protocol
guarantees). -/
abbrev sectionsOnly (rs : List KnownBlock) : Prop := ∀ b ∈ rs, isSectionB b = true

/-- The locked flag the constructor reads off a result region. -/
def lockedOf : List KnownBlock → Bool
  | sectionBlock x :: _ => decide (x = str ":lock:")
  | _ => false

/-- Well-formed voter lists: no commas inside a stored identifier (a
comma would merge with the separators of the votes string). -/
abbrev wfGroups (gs : List (List (JStr × List JStr))) : Prop :=
  ∀ g ∈ gs, ∀ o ∈ g, ∀ v ∈ o.2, ',' ∉ v

/-- No voter is listed twice for one option (the code only appends a
user when absent). -/
abbrev nodupVoters (gs : List (List (JStr × List JStr))) : Prop :=
  ∀ g ∈ gs, ∀ o ∈ g, o.2.Nodup

/-- A well-formed user identifier: no comma, distinct from the
placeholder. -/
abbrev wfUser (u : JStr) : Prop := ',' ∉ u ∧ u ≠ sp

/-- Option labels are pairwise distinct across the poll. -/
abbrev distinctLabels (gs : List (List (JStr × List JStr))) : Prop :=
  ((gs.flatten).map Prod.fst).Nodup

/-- The per-option effect of the `vote` callback, at the level of voter
lists. -/
def voteUpd (multiple : Bool) (buttonText userId : JStr) (o : JStr × List JStr) :
    JStr × List JStr :=
  if multiple = false ∧ userId ∈ o.2 ∧ o.1 ≠ buttonText then (o.1, eraseFirst userId o.2)
  else if o.1 = buttonText ∧ userId ∉ o.2 then (o.1, o.2 ++ [userId])
  else o

/-- The voter-list component of `voteUpd`. -/
def voteUpdVs (multiple : Bool) (buttonText userId label : JStr) (vs : List JStr) :
    List JStr :=
  if multiple = false ∧ userId ∈ vs ∧ label ≠ buttonText then eraseFirst userId vs
  else if label = buttonText ∧ userId ∉ vs then vs ++ [userId]
  else vs

/-- The per-group effect of the `resetVote` callback: remove the user
from the first option of the group holding them; continue with the rest
of the group only in multiple-choice mode. -/
def resetGroup (multiple : Bool) (userId : JStr) :
    List (JStr × List JStr) → List (JStr × List JStr)
  | [] => []
  | o :: rest =>
    if userId ∈ o.2 then
      (o.1, eraseFirst userId o.2) ::
        (if multiple then resetGroup multiple userId rest else rest)
    else o :: resetGroup multiple userId rest

/-- The `(key, value)` pair an option contributes to the `votes`
object. -/
def optPair (o : JStr × List JStr) : JStr × JStr := (o.1, voteValue o.2)

/-- Value for inserting an option into a list sorted by the numeric
value of the label. -/
def insertOptIdx (o : JStr × List JStr) :
    List (JStr × List JStr) → List (JStr × List JStr)
  | [] => [o]
  | o' :: rest =>
    if numVal o.1 ≤ numVal o'.1 then o :: o' :: rest else o' :: insertOptIdx o rest

/-- Value for sorting options by the ascending numeric value of their
labels. -/
def sortOptIdx : List (JStr × List JStr) → List (JStr × List JStr)
  | [] => []
  | o :: rest => insertOptIdx o (sortOptIdx rest)

/-- Options in the order JS `for-in` enumerates their labels as keys
of the `votes` object: options with an array-index label first in
ascending numeric order, then the rest in poll order. -/
def jsEnumOpts (l : List (JStr × List JStr)) : List (JStr × List JStr) :=
  sortOptIdx (l.filter fun o => isArrayIndex o.1)
    ++ l.filter fun o => !(isArrayIndex o.1)

/-- The rendered text of one result line. -/
def lineText (anonymous overrideAnon : Bool) (label : JStr) (vs : List JStr) : JStr :=
  str "*" ++ natToStr vs.length ++ str "* " ++ label ++ str " » " ++
    (if !anonymous || overrideAnon then joinComma (vs.map fun k => str "<@" ++ k ++ str ">")
     else str "~HIDDEN~")

/-- The result line an option produces: nothing when it has no voters. -/
def tallyOpt (anonymous overrideAnon : Bool) (o : JStr × List JStr) : Option KnownBlock :=
  if o.2 = [] then none
  else some (sectionBlock (lineText anonymous overrideAnon o.1 o.2))

/-- The result section that `generateResults` computes for an unlocked
poll whose message is in standard form with groups `gs`. -/
def tallyOf (anonymous overrideAnon : Bool) (gs : List (List (JStr × List JStr))) :
    List KnownBlock :=
  let pairs := ((gs.flatten).map optPair)
  (objKeys pairs).filterMap fun k =>
    buildVoteTally anonymous overrideAnon (lookupLast pairs k) k

/-- The builder takes the flag branch: token 0 is a flag word. -/
def flagCase (parameters : List JStr) : Bool :=
  decide (jsToLower ((tokensOf parameters).getD 0 []) = str "multiple"
    ∨ jsToLower ((tokensOf parameters).getD 0 []) = str "anon")

/-- The multiple flag as configured by the flag tokens of line 0. -/
def cfgMultiple (parameters : List JStr) : Bool :=
  flagCase parameters &&
    decide (jsToLower ((tokensOf parameters).getD 0 []) = str "multiple"
      ∨ jsToLower ((tokensOf parameters).getD 1 []) = str "multiple")

/-- The anonymous flag as configured by the flag tokens of line 0. -/
def cfgAnon (parameters : List JStr) : Bool :=
  flagCase parameters &&
    decide (jsToLower ((tokensOf parameters).getD 0 []) = str "anon"
      ∨ jsToLower ((tokensOf parameters).getD 1 []) = str "anon")

/-- The question line the builder uses (line 1 in the flag case, line 0
otherwise; a missing line 1 is JS `undefined`, coerced by `+=`). -/
def questionLine (parameters : List JStr) : JStr :=
  if flagCase parameters then parameters.getD 1 (str "undefined")
  else parameters.getD 0 []

/-- The title text the builder stores (question line plus the marker
suffixes for the configured flags). -/
def titleOf (parameters : List JStr) : JStr :=
  if flagCase parameters then
    questionLine parameters
      ++ (if cfgMultiple parameters then str " *(Multiple Answers)* " else [])
      ++ (if cfgAnon parameters then str " *(Anonymous)* " else [])
  else questionLine parameters

/-- Recognize a context block (for stating what decoding never checks). -/
def isContextB : KnownBlock → Bool
  | contextBlock _ => true
  | _ => false

/-- Number of occurrences of `x` in a voter list. -/
def countOcc (x : JStr) : List JStr → Nat
  | [] => 0
  | a :: rest => (if a = x then 1 else 0) + countOcc x rest

/-- Total number of votes user `u` holds across a list of options. -/
def userVoteCount (u : JStr) (opts : List (JStr × List JStr)) : Nat :=
  (opts.map fun o => countOcc u o.2).sum

/-- A locked poll message: the block after the divider is the lock
marker. -/
def lockedMsg : List KnownBlock :=
  [sectionBlock (str "T"), contextBlock (str "Asked by: <@U9>"), divider,
   sectionBlock (str ":lock:")]

/-- A block sequence whose position 1 is not context-shaped and which
has no divider at all. -/
def c9msg : List KnownBlock :=
  [sectionBlock (str "T"), sectionBlock (str "x")]

/-- Concrete two-group option table for the reset witness. -/
def c4gs : List (List (JStr × List JStr)) :=
  [[(str "A", [str "U1"])], [(str "B", [str "U1"])]]

/-- Concrete option table with distinct labels for witnesses. -/
def c7gs : List (List (JStr × List JStr)) :=
  [[(str "A", [str "U1"]), (str "B", [])]]

/-- The decoded poll of the `c7gs` table (plain poll, no flags). -/
def c7poll : Poll :=
  ⟨stdMsg (str "Q?") (str "Asked by: <@U9>") c7gs [], false, false, false⟩

/-- A single-choice poll with two option groups, the user voted in
both. -/
def twoGroupMsg : List KnownBlock :=
  [sectionBlock (str "T"), contextBlock (str "Asked by: <@U9>"),
   actions [button (str "A") (str " ,U1")],
   actions [button (str "B") (str " ,U1")],
   controlMenu, divider]

/-- The message built for the spec's multiple-choice lunch scenario. -/
def lunchMsg : List KnownBlock :=
  slashCreateMsg (str "<@U1>") [str "multiple", str "Lunch?", str "Pizza", str "Tacos"]

/-- The lunch scenario message after U2 voted for both options. -/
def lunchVoted : List KnownBlock :=
  [sectionBlock (str "Lunch? *(Multiple Answers)* "),
   contextBlock (str "Asked by: <@U1>"),
   actions [button (str "Pizza") (str " ,U2"), button (str "Tacos") (str " ,U2")],
   controlMenu, divider,
   sectionBlock (str "*1* Pizza » <@U2>"),
   sectionBlock (str "*1* Tacos » <@U2>")]

/-! Basic lemmas about the string-as-list operations. -/

theorem splitComma_voteValue {vs : List JStr} (h : ∀ v ∈ vs, ',' ∉ v) :
    splitComma (voteValue vs) = sp :: vs := by
  unfold splitComma voteValue joinComma
  apply List.splitOn_intercalate
  · intro l hl
    rcases List.mem_cons.1 hl with rfl | hl
    · decide
    · exact h l hl
  · exact List.cons_ne_nil _ _

theorem jsIndexOf_neg_one_or_nonneg (l : List JStr) (x : JStr) :
    jsIndexOf l x = -1 ∨ 0 ≤ jsIndexOf l x := by
  induction l with
  | nil => left; rfl
  | cons a rest ih =>
    by_cases ha : a = x
    · right; simp [jsIndexOf, ha]
    · rcases ih with h | h
      · left; simp [jsIndexOf, ha, h]
      · right
        simp only [jsIndexOf, if_neg ha]
        have : jsIndexOf rest x ≠ -1 := by omega
        simp only [if_neg this]
        omega

theorem jsIndexOf_eq_neg_one_iff {l : List JStr} {x : JStr} :
    jsIndexOf l x = -1 ↔ x ∉ l := by
  induction l with
  | nil => simp [jsIndexOf]
  | cons a rest ih =>
    by_cases ha : a = x
    · subst ha
      simp [jsIndexOf]
    · rcases jsIndexOf_neg_one_or_nonneg rest x with h | h
      · simp [jsIndexOf, ha, h, ih.1 h, Ne.symm ha]
      · have hne : jsIndexOf rest x ≠ -1 := by omega
        have hmem : x ∈ rest := by
          by_contra hc
          exact hne (ih.2 hc)
        simp only [jsIndexOf, if_neg ha, if_neg hne]
        constructor
        · intro hlt; omega
        · intro hc
          exact absurd (List.mem_cons_of_mem a hmem) hc

theorem jsSpliceAt_jsIndexOf {l : List JStr} {x : JStr} (h : x ∈ l) :
    jsSpliceAt l (jsIndexOf l x) = eraseFirst x l := by
  induction l with
  | nil => cases h
  | cons a rest ih =>
    by_cases ha : a = x
    · subst ha
      simp [jsIndexOf, jsSpliceAt, removeAt, eraseFirst]
    · have hmem : x ∈ rest := by
        rcases List.mem_cons.1 h with h' | h'
        · exact absurd h'.symm ha
        · exact h'
      have hne : jsIndexOf rest x ≠ -1 := fun hc => (jsIndexOf_eq_neg_one_iff.1 hc) hmem
      have hge : 0 ≤ jsIndexOf rest x := by
        rcases jsIndexOf_neg_one_or_nonneg rest x with h' | h'
        · exact absurd h' hne
        · exact h'
      have ih' := ih hmem
      simp only [jsIndexOf, if_neg ha, if_neg hne]
      simp only [jsSpliceAt] at ih' ⊢
      rw [if_neg (by omega : ¬ jsIndexOf rest x + 1 < 0)] at *
      rw [if_neg (by omega : ¬ jsIndexOf rest x < 0)] at ih'
      have htn : (jsIndexOf rest x + 1).toNat = (jsIndexOf rest x).toNat + 1 := by omega
      rw [htn]
      simp [removeAt, eraseFirst, ha, ih']

theorem eraseFirst_of_not_mem {x : JStr} {l : List JStr} (h : x ∉ l) :
    eraseFirst x l = l := by
  induction l with
  | nil => rfl
  | cons a rest ih =>
    have ha : a ≠ x := fun hc => h (hc ▸ List.mem_cons_self a rest)
    simp only [eraseFirst, if_neg ha]
    rw [ih (fun hc => h (List.mem_cons_of_mem a hc))]

theorem not_mem_eraseFirst_of_nodup {x : JStr} {l : List JStr} (h : l.Nodup) :
    x ∉ eraseFirst x l := by
  induction l with
  | nil => simp [eraseFirst]
  | cons a rest ih =>
    rcases List.nodup_cons.1 h with ⟨hna, hnd⟩
    by_cases ha : a = x
    · subst ha
      simpa [eraseFirst] using hna
    · simp only [eraseFirst, if_neg ha]
      intro hc
      rcases List.mem_cons.1 hc with h' | h'
      · exact ha h'.symm
      · exact ih hnd h'

theorem eraseFirst_sublist (x : JStr) (l : List JStr) :
    (eraseFirst x l).Sublist l := by
  induction l with
  | nil => simp [eraseFirst]
  | cons a rest ih =>
    by_cases ha : a = x
    · simp [eraseFirst, ha, List.sublist_cons_self]
    · simpa [eraseFirst, ha] using ih.cons₂ a

theorem nodup_eraseFirst {x : JStr} {l : List JStr} (h : l.Nodup) :
    (eraseFirst x l).Nodup :=
  (eraseFirst_sublist x l).nodup h

theorem mem_of_mem_eraseFirst {x v : JStr} {l : List JStr}
    (h : v ∈ eraseFirst x l) : v ∈ l :=
  (eraseFirst_sublist x l).mem h

theorem voteUpd_eq (m : Bool) (B u l : JStr) (vs : List JStr) :
    voteUpd m B u (l, vs) = (l, voteUpdVs m B u l vs) := by
  unfold voteUpd voteUpdVs
  split_ifs <;> rfl

/-! Characterizations of the two button callbacks on well-formed votes
strings. -/

theorem voteCb_voteValue (m : Bool) (B u l : JStr) {vs : List JStr}
    (hvs : ∀ v ∈ vs, ',' ∉ v) (hu : wfUser u) :
    voteCb m B u l (voteValue vs) = (voteValue (voteUpdVs m B u l vs), false) := by
  have hspu : sp ≠ u := Ne.symm hu.2
  have hiff : jsIndexOf (sp :: vs) u = -1 ↔ u ∉ vs := by
    rw [jsIndexOf_eq_neg_one_iff]
    constructor
    · intro h hc; exact h (List.mem_cons_of_mem _ hc)
    · intro h hc
      rcases List.mem_cons.1 hc with h' | h'
      · exact hu.2 h'
      · exact h h'
  simp only [voteCb, splitComma_voteValue hvs, voteUpdVs]
  by_cases hmem : u ∈ vs
  · have hne : jsIndexOf (sp :: vs) u ≠ -1 := fun hc => hiff.1 hc hmem
    have hge : 0 ≤ jsIndexOf (sp :: vs) u := by
      rcases jsIndexOf_neg_one_or_nonneg (sp :: vs) u with h | h
      · exact absurd h hne
      · exact h
    have hgt : jsIndexOf (sp :: vs) u > -1 := by omega
    have hsplice : jsSpliceAt (sp :: vs) (jsIndexOf (sp :: vs) u) = sp :: eraseFirst u vs := by
      rw [jsSpliceAt_jsIndexOf (List.mem_cons_of_mem _ hmem)]
      simp [eraseFirst, hspu]
    by_cases hmf : m = false
    · by_cases hlB : l = B
      · rw [if_neg (by tauto), if_neg (by tauto), if_neg (by tauto), if_neg (by tauto)]
        rfl
      · rw [if_pos ⟨hmf, hgt, hlB⟩, if_pos ⟨hmf, hmem, hlB⟩, hsplice]
        rfl
    · rw [if_neg (by tauto), if_neg (by tauto), if_neg (by tauto), if_neg (by tauto)]
      rfl
  · have heq : jsIndexOf (sp :: vs) u = -1 := hiff.2 hmem
    have hngt : ¬ jsIndexOf (sp :: vs) u > -1 := by omega
    by_cases hlB : l = B
    · rw [if_neg (by tauto), if_pos ⟨hlB, heq⟩, if_neg (by tauto), if_pos ⟨hlB, hmem⟩]
      rfl
    · rw [if_neg (by tauto), if_neg (by tauto), if_neg (by tauto), if_neg (by tauto)]
      rfl

theorem resetCb_voteValue (m : Bool) (u l : JStr) {vs : List JStr}
    (hvs : ∀ v ∈ vs, ',' ∉ v) (hu : wfUser u) :
    resetCb m u l (voteValue vs) =
      if u ∈ vs then (voteValue (eraseFirst u vs), !m) else (voteValue vs, false) := by
  have hspu : sp ≠ u := Ne.symm hu.2
  have hiff : jsIndexOf (sp :: vs) u = -1 ↔ u ∉ vs := by
    rw [jsIndexOf_eq_neg_one_iff]
    constructor
    · intro h hc; exact h (List.mem_cons_of_mem _ hc)
    · intro h hc
      rcases List.mem_cons.1 hc with h' | h'
      · exact hu.2 h'
      · exact h h'
  simp only [resetCb, splitComma_voteValue hvs]
  by_cases hmem : u ∈ vs
  · have hne : jsIndexOf (sp :: vs) u ≠ -1 := fun hc => hiff.1 hc hmem
    rw [if_neg hne, if_pos hmem, jsSpliceAt_jsIndexOf (List.mem_cons_of_mem _ hmem)]
    simp [eraseFirst, hspu]
    rfl
  · rw [if_pos (hiff.2 hmem), if_neg hmem]

/-! Effect of `processButtons` on standard-form messages. -/

theorem processElems_voteCb (m : Bool) (B u : JStr) {g : List (JStr × List JStr)}
    (hg : ∀ o ∈ g, ∀ v ∈ o.2, ',' ∉ v) (hu : wfUser u) :
    processElems (voteCb m B u) (g.map optionButton) =
      (g.map (voteUpd m B u)).map optionButton := by
  induction g with
  | nil => rfl
  | cons o rest ih =>
    have ho := hg o (List.mem_cons_self o rest)
    have hrest : ∀ o' ∈ rest, ∀ v ∈ o'.2, ',' ∉ v :=
      fun o' h' => hg o' (List.mem_cons_of_mem o h')
    obtain ⟨l, vs⟩ := o
    have hcb := voteCb_voteValue m B u l ho hu
    simp [processElems, optionButton, hcb, voteUpd_eq, ih hrest]

theorem processElems_resetCb (m : Bool) (u : JStr) {g : List (JStr × List JStr)}
    (hg : ∀ o ∈ g, ∀ v ∈ o.2, ',' ∉ v) (hu : wfUser u) :
    processElems (resetCb m u) (g.map optionButton) =
      (resetGroup m u g).map optionButton := by
  induction g with
  | nil => rfl
  | cons o rest ih =>
    have ho := hg o (List.mem_cons_self o rest)
    have hrest : ∀ o' ∈ rest, ∀ v ∈ o'.2, ',' ∉ v :=
      fun o' h' => hg o' (List.mem_cons_of_mem o h')
    obtain ⟨l, vs⟩ := o
    by_cases hmem : u ∈ vs
    · simp only [List.map_cons, optionButton, processElems,
        resetCb_voteValue m u l ho hu, if_pos hmem, resetGroup]
      cases m with
      | false => simp
      | true => simpa using ih hrest
    · simp only [List.map_cons, optionButton, processElems,
        resetCb_voteValue m u l ho hu, if_neg hmem, resetGroup]
      simpa using ih hrest

theorem processBlock_optionGroup (f : JStr → JStr → JStr × Bool)
    (g : List (JStr × List JStr)) :
    processBlock f (optionGroup g) = actions (processElems f (g.map optionButton)) := rfl

theorem processBlock_controlMenu (f : JStr → JStr → JStr × Bool) :
    processBlock f controlMenu = controlMenu := rfl

theorem processBlock_of_isSectionB {b : KnownBlock} (h : isSectionB b = true)
    (f : JStr → JStr → JStr × Bool) : processBlock f b = b := by
  cases b <;> simp_all [isSectionB, processBlock]

theorem map_processBlock_sections {rs : List KnownBlock} (h : sectionsOnly rs)
    (f : JStr → JStr → JStr × Bool) : rs.map (processBlock f) = rs := by
  induction rs with
  | nil => rfl
  | cons b rest ih =>
    rw [List.map_cons, processBlock_of_isSectionB (h b (List.mem_cons_self b rest)) f,
      ih (fun b' h' => h b' (List.mem_cons_of_mem b h'))]

theorem processAllButtons_stdMsg_vote (m : Bool) (B u t a : JStr)
    {gs : List (List (JStr × List JStr))} {rs : List KnownBlock}
    (hw : ∀ g ∈ gs, ∀ o ∈ g, ∀ v ∈ o.2, ',' ∉ v) (hu : wfUser u)
    (hrs : sectionsOnly rs) :
    processAllButtons (voteCb m B u) (stdMsg t a gs rs) =
      stdMsg t a (gs.map (List.map (voteUpd m B u))) rs := by
  simp only [stdMsg, processAllButtons, List.map_append, List.map_map]
  rw [map_processBlock_sections hrs]
  have hA : List.map (processBlock (voteCb m B u) ∘ optionGroup) gs
      = List.map (optionGroup ∘ List.map (voteUpd m B u)) gs := by
    apply List.map_congr_left
    intro g hg
    simp [Function.comp_apply, optionGroup, processBlock,
      processElems_voteCb m B u (hw g hg) hu]
  have hB : List.map (processBlock (voteCb m B u)) [controlMenu, divider]
      = [controlMenu, divider] := rfl
  rw [hA, hB]

theorem processAllButtons_stdMsg_reset (m : Bool) (u t a : JStr)
    {gs : List (List (JStr × List JStr))} {rs : List KnownBlock}
    (hw : ∀ g ∈ gs, ∀ o ∈ g, ∀ v ∈ o.2, ',' ∉ v) (hu : wfUser u)
    (hrs : sectionsOnly rs) :
    processAllButtons (resetCb m u) (stdMsg t a gs rs) =
      stdMsg t a (gs.map (resetGroup m u)) rs := by
  simp only [stdMsg, processAllButtons, List.map_append, List.map_map]
  rw [map_processBlock_sections hrs]
  have hA : List.map (processBlock (resetCb m u) ∘ optionGroup) gs
      = List.map (optionGroup ∘ resetGroup m u) gs := by
    apply List.map_congr_left
    intro g hg
    simp [Function.comp_apply, optionGroup, processBlock,
      processElems_resetCb m u (hw g hg) hu]
  have hB : List.map (processBlock (resetCb m u)) [controlMenu, divider]
      = [controlMenu, divider] := rfl
  rw [hA, hB]

/-! The divider position and decoding of standard-form messages. -/

theorem getDividerId_of_not_mem {l : List KnownBlock} (h : divider ∉ l) :
    getDividerId l = -1 := by
  induction l with
  | nil => rfl
  | cons b rest ih =>
    have hb : b ≠ divider := fun hc => h (hc ▸ List.mem_cons_self b rest)
    have hr := ih (fun hc => h (List.mem_cons_of_mem b hc))
    simp [getDividerId, hr, hb]

theorem getDividerId_cons_of_pos {l : List KnownBlock} (b : KnownBlock)
    (h : 0 ≤ getDividerId l) : getDividerId (b :: l) = getDividerId l + 1 := by
  rw [show getDividerId (b :: l)
      = if getDividerId l ≥ 0 then getDividerId l + 1
        else if b = divider then 0 else -1 from rfl, if_pos (by omega)]

theorem getDividerId_append_right {l₂ : List KnownBlock} (l₁ : List KnownBlock)
    (h : 0 ≤ getDividerId l₂) :
    getDividerId (l₁ ++ l₂) = getDividerId l₂ + l₁.length := by
  induction l₁ with
  | nil => simp
  | cons b rest ih =>
    have hge : 0 ≤ getDividerId (rest ++ l₂) := by rw [ih]; omega
    rw [List.cons_append, getDividerId_cons_of_pos b hge, ih, List.length_cons]
    push_cast
    omega

theorem sectionsOnly_divider_not_mem {rs : List KnownBlock} (h : sectionsOnly rs) :
    divider ∉ rs := by
  intro hc
  have := h divider hc
  simp [isSectionB] at this

theorem getDividerId_stdMsg (t a : JStr) (gs : List (List (JStr × List JStr)))
    {rs : List KnownBlock} (h : divider ∉ rs) :
    getDividerId (stdMsg t a gs rs) = (gs.length : Int) + 3 := by
  have h0 : getDividerId (divider :: rs) = 0 := by
    rw [show getDividerId (divider :: rs)
        = if getDividerId rs ≥ 0 then getDividerId rs + 1
          else if (divider : KnownBlock) = divider then 0 else -1 from rfl,
      getDividerId_of_not_mem h]
    norm_num
  have h1 : getDividerId (controlMenu :: divider :: rs) = 1 := by
    rw [getDividerId_cons_of_pos _ (le_of_eq h0.symm), h0]
    norm_num
  have h2 : getDividerId (gs.map optionGroup ++ (controlMenu :: divider :: rs))
      = 1 + (gs.length : Int) := by
    rw [getDividerId_append_right _ (by rw [h1]; norm_num), h1, List.length_map]
  have hassoc : gs.map optionGroup ++ [controlMenu, divider] ++ rs
      = gs.map optionGroup ++ (controlMenu :: divider :: rs) := by simp
  rw [stdMsg, hassoc, getDividerId_cons_of_pos (sectionBlock t)
      (by rw [getDividerId_cons_of_pos (contextBlock a) (by rw [h2]; omega), h2]; omega),
    getDividerId_cons_of_pos (contextBlock a) (by rw [h2]; omega), h2]
  omega

theorem length_stdMsg (t a : JStr) (gs : List (List (JStr × List JStr)))
    (rs : List KnownBlock) :
    (stdMsg t a gs rs).length = gs.length + rs.length + 4 := by
  simp [stdMsg]
  omega

theorem head?_stdMsg (t a : JStr) (gs : List (List (JStr × List JStr)))
    (rs : List KnownBlock) :
    (stdMsg t a gs rs).head? = some (sectionBlock t) := rfl

theorem decode_stdMsg (t a : JStr) (gs : List (List (JStr × List JStr)))
    {rs : List KnownBlock} (hrs : sectionsOnly rs) :
    decode (stdMsg t a gs rs) =
      some ⟨stdMsg t a gs rs, jsIncludes t (str "(Multiple Answers)"),
        jsIncludes t (str "(Anonymous)"), lockedOf rs⟩ := by
  have hdiv := getDividerId_stdMsg t a gs (sectionsOnly_divider_not_mem hrs)
  cases rs with
  | nil =>
    have hguard : ¬ (((stdMsg t a gs []).length : Int) - 1
        ≠ getDividerId (stdMsg t a gs [])) := by
      rw [hdiv, length_stdMsg]
      simp only [List.length_nil]
      omega
    simp [decode, head?_stdMsg, sectionText, hguard, lockedOf]
  | cons b rest =>
    obtain ⟨x, rfl⟩ : ∃ x, b = sectionBlock x := by
      have hb := hrs b (List.mem_cons_self b rest)
      cases b with
      | sectionBlock y => exact ⟨y, rfl⟩
      | contextBlock y => simp [isSectionB] at hb
      | actions es => simp [isSectionB] at hb
      | divider => simp [isSectionB] at hb
    have hne : ((stdMsg t a gs (sectionBlock x :: rest)).length : Int) - 1
        ≠ getDividerId (stdMsg t a gs (sectionBlock x :: rest)) := by
      rw [hdiv, length_stdMsg]
      simp only [List.length_cons]
      omega
    have hplen : (sectionBlock t :: contextBlock a ::
        (gs.map optionGroup ++ [controlMenu, divider])).length = gs.length + 4 := by
      simp only [List.length_cons, List.length_append, List.length_map, List.length_nil]
    have hget : (stdMsg t a gs
        (sectionBlock x :: rest))[(getDividerId (stdMsg t a gs (sectionBlock x :: rest))
          + 1).toNat]? = some (sectionBlock x) := by
      rw [hdiv, show ((gs.length : Int) + 3 + 1).toNat = gs.length + 4 from by omega]
      have hsplit : stdMsg t a gs (sectionBlock x :: rest)
          = (sectionBlock t :: contextBlock a ::
              (gs.map optionGroup ++ [controlMenu, divider]))
            ++ (sectionBlock x :: rest) := by
        simp [stdMsg]
      rw [hsplit, List.getElem?_append_right hplen.le, hplen]
      simp
    simp [decode, head?_stdMsg, sectionText, hne, hget, lockedOf]

/-! The collecting pass and the tally on standard-form messages. -/

theorem blockButtons_optionGroup (g : List (JStr × List JStr)) :
    blockButtons (optionGroup g) = g.map optPair := by
  induction g with
  | nil => rfl
  | cons o rest ih =>
    obtain ⟨l, vs⟩ := o
    simpa [blockButtons, optionGroup, optionButton, optPair,
      List.filterMap_cons] using ih

theorem collectVotesPairs_stdMsg (t a : JStr) (gs : List (List (JStr × List JStr)))
    (rs : List KnownBlock) :
    collectVotesPairs (stdMsg t a gs rs) ((gs.length : Int) + 3)
      = (gs.flatten).map optPair := by
  unfold collectVotesPairs
  rw [show ((gs.length : Int) + 3).toNat = gs.length + 3 from by omega]
  have htake : (stdMsg t a gs rs).take (gs.length + 3)
      = sectionBlock t :: contextBlock a :: (gs.map optionGroup ++ [controlMenu]) := by
    have hsplit : stdMsg t a gs rs
        = (sectionBlock t :: contextBlock a :: (gs.map optionGroup ++ [controlMenu]))
          ++ (divider :: rs) := by
      simp [stdMsg]
    rw [hsplit,
      show gs.length + 3
        = (sectionBlock t :: contextBlock a ::
            (gs.map optionGroup ++ [controlMenu])).length + 0 from by simp,
      List.take_append 0]
    simp
  rw [htake]
  simp only [List.drop_succ_cons, List.drop_zero, List.map_append, List.map_map]
  rw [List.flatten_append]
  have hmenu : List.map blockButtons [controlMenu] = [[]] := rfl
  rw [hmenu]
  have : List.map (blockButtons ∘ optionGroup) gs = List.map (fun g => g.map optPair) gs := by
    apply List.map_congr_left
    intro g _
    simp [Function.comp_apply, blockButtons_optionGroup]
  rw [this]
  simp [List.map_flatten]

theorem firstKeysAux_of_nodup :
    ∀ (pairs : List (JStr × JStr)) (seen : List JStr),
      (pairs.map Prod.fst).Nodup → (∀ k ∈ pairs.map Prod.fst, k ∉ seen) →
      firstKeysAux seen pairs = pairs.map Prod.fst := by
  intro pairs
  induction pairs with
  | nil => intro seen _ _; rfl
  | cons p rest ih =>
    intro seen hnd hseen
    obtain ⟨k, v⟩ := p
    have hk : k ∉ seen := hseen k (by simp)
    simp only [List.map_cons] at hnd
    have hnd' := List.nodup_cons.1 hnd
    simp only [firstKeysAux, if_neg hk, List.map_cons]
    congr 1
    apply ih
    · exact hnd'.2
    · intro k' hk' hc
      rcases List.mem_cons.1 hc with rfl | hc'
      · exact hnd'.1 hk'
      · exact hseen k' (List.mem_cons_of_mem _ hk') hc'

theorem objKeys_of_nodup {pairs : List (JStr × JStr)}
    (h : (pairs.map Prod.fst).Nodup) :
    objKeys pairs = jsEnumKeys (pairs.map Prod.fst) := by
  unfold objKeys
  rw [firstKeysAux_of_nodup pairs [] h (by simp)]

theorem map_fst_insertOptIdx (o : JStr × List JStr) :
    ∀ m : List (JStr × List JStr),
      (insertOptIdx o m).map Prod.fst = insertIdx o.1 (m.map Prod.fst) := by
  intro m
  induction m with
  | nil => rfl
  | cons o' rest ih =>
    simp only [insertOptIdx, insertIdx, List.map_cons]
    split_ifs <;> simp [ih]

theorem map_fst_sortOptIdx :
    ∀ m : List (JStr × List JStr),
      (sortOptIdx m).map Prod.fst = sortIdx (m.map Prod.fst) := by
  intro m
  induction m with
  | nil => rfl
  | cons o rest ih =>
    simp only [sortOptIdx, sortIdx, List.map_cons, ← ih, map_fst_insertOptIdx]

theorem map_fst_jsEnumOpts (l : List (JStr × List JStr)) :
    (jsEnumOpts l).map Prod.fst = jsEnumKeys (l.map Prod.fst) := by
  unfold jsEnumOpts jsEnumKeys
  rw [List.map_append, map_fst_sortOptIdx]
  rw [show (l.map Prod.fst).filter isArrayIndex
      = (l.filter fun o => isArrayIndex o.1).map Prod.fst from
    List.filter_map Prod.fst l]
  rw [show (l.map Prod.fst).filter (fun k => !(isArrayIndex k))
      = (l.filter fun o => !(isArrayIndex o.1)).map Prod.fst from
    List.filter_map Prod.fst l]

theorem mem_insertOptIdx {x o : JStr × List JStr} :
    ∀ {m : List (JStr × List JStr)}, x ∈ insertOptIdx o m ↔ x = o ∨ x ∈ m := by
  intro m
  induction m with
  | nil => simp [insertOptIdx]
  | cons o' rest ih =>
    simp only [insertOptIdx]
    split_ifs
    · simp
    · rw [List.mem_cons, List.mem_cons, ih]
      tauto

theorem mem_sortOptIdx {x : JStr × List JStr} :
    ∀ {m : List (JStr × List JStr)}, x ∈ sortOptIdx m ↔ x ∈ m := by
  intro m
  induction m with
  | nil => simp [sortOptIdx]
  | cons o rest ih =>
    simp only [sortOptIdx, mem_insertOptIdx, ih, List.mem_cons]

theorem mem_jsEnumOpts {x : JStr × List JStr} {l : List (JStr × List JStr)} :
    x ∈ jsEnumOpts l ↔ x ∈ l := by
  unfold jsEnumOpts
  rw [List.mem_append, mem_sortOptIdx, List.mem_filter, List.mem_filter]
  by_cases h : isArrayIndex x.1 <;> simp [h]

theorem jsEnumKeys_singleton (k : JStr) : jsEnumKeys [k] = [k] := by
  unfold jsEnumKeys
  cases h : isArrayIndex k <;> simp [h, sortIdx, insertIdx]

theorem lookupFirst_of_mem {pairs : List (JStr × JStr)} {k v : JStr}
    (hnd : (pairs.map Prod.fst).Nodup) (hm : (k, v) ∈ pairs) :
    lookupFirst pairs k = v := by
  induction pairs with
  | nil => cases hm
  | cons p rest ih =>
    obtain ⟨k', v'⟩ := p
    simp only [List.map_cons] at hnd
    have hnd' := List.nodup_cons.1 hnd
    by_cases hk : k' = k
    · subst hk
      rcases List.mem_cons.1 hm with h' | h'
      · injection h' with h1 h2
        simp [lookupFirst, h2]
      · exact absurd (List.mem_map_of_mem Prod.fst h') hnd'.1
    · rcases List.mem_cons.1 hm with h' | h'
      · exact absurd (congrArg Prod.fst h').symm hk
      · simp only [lookupFirst, if_neg hk]
        exact ih hnd'.2 h'

theorem lookupLast_of_mem {pairs : List (JStr × JStr)} {k v : JStr}
    (hnd : (pairs.map Prod.fst).Nodup) (hm : (k, v) ∈ pairs) :
    lookupLast pairs k = v := by
  unfold lookupLast
  apply lookupFirst_of_mem
  · rw [List.map_reverse]
    exact List.nodup_reverse.2 hnd
  · exact List.mem_reverse.2 hm

theorem buildVoteTally_voteValue (anon o : Bool) (k : JStr) {vs : List JStr}
    (h : ∀ v ∈ vs, ',' ∉ v) :
    buildVoteTally anon o (voteValue vs) k = tallyOpt anon o (k, vs) := by
  unfold buildVoteTally tallyOpt lineText
  rw [splitComma_voteValue h]
  rfl

theorem tallyOf_eq_filterMap (anon o : Bool) {gs : List (List (JStr × List JStr))}
    (hw : ∀ g ∈ gs, ∀ o' ∈ g, ∀ v ∈ o'.2, ',' ∉ v) (hd : distinctLabels gs) :
    tallyOf anon o gs = (jsEnumOpts gs.flatten).filterMap (tallyOpt anon o) := by
  simp only [tallyOf]
  have hco : (Prod.fst ∘ optPair) = Prod.fst := funext fun o' => rfl
  have hfst : (gs.flatten.map optPair).map Prod.fst = gs.flatten.map Prod.fst := by
    rw [List.map_map, hco]
  have hnd : ((gs.flatten.map optPair).map Prod.fst).Nodup := by
    rw [hfst]; exact hd
  rw [objKeys_of_nodup hnd, hfst, ← map_fst_jsEnumOpts, List.filterMap_map]
  apply List.filterMap_congr
  intro o' ho'
  have ho'' : o' ∈ gs.flatten := mem_jsEnumOpts.1 ho'
  have hlook : lookupLast (gs.flatten.map optPair) o'.1 = voteValue o'.2 :=
    lookupLast_of_mem hnd (List.mem_map_of_mem optPair ho'')
  obtain ⟨g, hg, hog⟩ := List.mem_flatten.1 ho''
  have hcf : ∀ v ∈ o'.2, ',' ∉ v := hw g hg o' hog
  simp only [Function.comp_apply, hlook, buildVoteTally_voteValue anon o o'.1 hcf]

theorem generateResults_stdMsg (t a : JStr) (gs : List (List (JStr × List JStr)))
    {rs : List KnownBlock} (hrs : sectionsOnly rs) (mult anon lk o : Bool) :
    generateResults ⟨stdMsg t a gs rs, mult, anon, lk⟩ o =
      (if lk then [sectionBlock (str ":lock:")] else []) ++ tallyOf anon o gs := by
  simp only [generateResults]
  rw [getDividerId_stdMsg t a gs (sectionsOnly_divider_not_mem hrs),
    collectVotesPairs_stdMsg]
  simp only [tallyOf]
  cases lk <;> simp

theorem take_min_length {α : Type} (l : List α) (n : Nat) :
    l.take (min n l.length) = l.take n := by
  rcases le_total n l.length with h | h
  · rw [min_eq_left h]
  · rw [min_eq_right h, List.take_length, List.take_of_length_le h]

theorem jsSlice_zero_nonneg (l : List KnownBlock) (e : Int) (he : 0 ≤ e) :
    jsSlice l 0 e = l.take e.toNat := by
  unfold jsSlice jsIdx
  rw [if_neg (by omega : ¬ (0:Int) < 0), if_neg (by omega : ¬ e < 0)]
  rw [show (0:Int).toNat = 0 from rfl, min_comm]
  rw [take_min_length]
  simp

theorem take_stdMsg (t a : JStr) (gs : List (List (JStr × List JStr)))
    (rs : List KnownBlock) :
    (stdMsg t a gs rs).take (gs.length + 4)
      = sectionBlock t :: contextBlock a :: (gs.map optionGroup ++ [controlMenu, divider]) := by
  have hplen : (sectionBlock t :: contextBlock a ::
      (gs.map optionGroup ++ [controlMenu, divider])).length = gs.length + 4 := by
    simp only [List.length_cons, List.length_append, List.length_map, List.length_nil]
  have hsplit : stdMsg t a gs rs
      = (sectionBlock t :: contextBlock a ::
          (gs.map optionGroup ++ [controlMenu, divider])) ++ rs := by
    simp [stdMsg]
  rw [hsplit, show gs.length + 4
      = (sectionBlock t :: contextBlock a ::
          (gs.map optionGroup ++ [controlMenu, divider])).length + 0 from by rw [hplen],
    List.take_append 0]
  simp

theorem generateVoteResults_stdMsg (t a : JStr) (gs : List (List (JStr × List JStr)))
    {rs : List KnownBlock} (hrs : sectionsOnly rs) (mult anon : Bool) :
    generateVoteResults ⟨stdMsg t a gs rs, mult, anon, false⟩ =
      ⟨stdMsg t a gs (tallyOf anon false gs), mult, anon, false⟩ := by
  have hdiv := getDividerId_stdMsg t a gs (sectionsOnly_divider_not_mem hrs)
  simp only [generateVoteResults]
  rw [generateResults_stdMsg t a gs hrs mult anon false false, hdiv]
  rw [jsSlice_zero_nonneg _ _ (by omega),
    show ((gs.length : Int) + 3 + 1).toNat = gs.length + 4 from by omega,
    take_stdMsg]
  simp [stdMsg]

theorem applyVote_stdMsg (t a B u : JStr) (gs : List (List (JStr × List JStr)))
    {rs : List KnownBlock} (hw : wfGroups gs) (hu : wfUser u)
    (hrs : sectionsOnly rs) (hlk : lockedOf rs = false) :
    applyVote (stdMsg t a gs rs) B u =
      some (stdMsg t a
        (gs.map (List.map (voteUpd (jsIncludes t (str "(Multiple Answers)")) B u)))
        (tallyOf (jsIncludes t (str "(Anonymous)")) false
          (gs.map (List.map (voteUpd (jsIncludes t (str "(Multiple Answers)")) B u))))) := by
  unfold applyVote
  rw [decode_stdMsg t a gs hrs, hlk]
  simp only [Option.map_some']
  congr 1
  unfold vote
  rw [if_neg (by simp : ¬ (false : Bool) = true)]
  rw [show (⟨stdMsg t a gs rs, jsIncludes t (str "(Multiple Answers)"),
      jsIncludes t (str "(Anonymous)"), false⟩ : Poll).message
      = stdMsg t a gs rs from rfl]
  rw [processAllButtons_stdMsg_vote (jsIncludes t (str "(Multiple Answers)")) B u t a
      hw hu hrs]
  rw [show ({ (⟨stdMsg t a gs rs, jsIncludes t (str "(Multiple Answers)"),
      jsIncludes t (str "(Anonymous)"), false⟩ : Poll) with
        message := stdMsg t a
          (gs.map (List.map (voteUpd (jsIncludes t (str "(Multiple Answers)")) B u))) rs }
      : Poll)
      = ⟨stdMsg t a
          (gs.map (List.map (voteUpd (jsIncludes t (str "(Multiple Answers)")) B u))) rs,
        jsIncludes t (str "(Multiple Answers)"),
        jsIncludes t (str "(Anonymous)"), false⟩ from rfl]
  rw [generateVoteResults_stdMsg _ _ _ hrs]

theorem applyReset_stdMsg (t a u : JStr) (gs : List (List (JStr × List JStr)))
    {rs : List KnownBlock} (hw : wfGroups gs) (hu : wfUser u)
    (hrs : sectionsOnly rs) (hlk : lockedOf rs = false) :
    applyReset (stdMsg t a gs rs) u =
      some (stdMsg t a
        (gs.map (resetGroup (jsIncludes t (str "(Multiple Answers)")) u))
        (tallyOf (jsIncludes t (str "(Anonymous)")) false
          (gs.map (resetGroup (jsIncludes t (str "(Multiple Answers)")) u)))) := by
  unfold applyReset
  rw [decode_stdMsg t a gs hrs, hlk]
  simp only [Option.map_some']
  congr 1
  unfold resetVote
  rw [show (⟨stdMsg t a gs rs, jsIncludes t (str "(Multiple Answers)"),
      jsIncludes t (str "(Anonymous)"), false⟩ : Poll).message
      = stdMsg t a gs rs from rfl]
  rw [processAllButtons_stdMsg_reset (jsIncludes t (str "(Multiple Answers)")) u t a
      hw hu hrs]
  rw [show ({ (⟨stdMsg t a gs rs, jsIncludes t (str "(Multiple Answers)"),
      jsIncludes t (str "(Anonymous)"), false⟩ : Poll) with
        message := stdMsg t a
          (gs.map (resetGroup (jsIncludes t (str "(Multiple Answers)")) u)) rs }
      : Poll)
      = ⟨stdMsg t a
          (gs.map (resetGroup (jsIncludes t (str "(Multiple Answers)")) u)) rs,
        jsIncludes t (str "(Multiple Answers)"),
        jsIncludes t (str "(Anonymous)"), false⟩ from rfl]
  rw [generateVoteResults_stdMsg _ _ _ hrs]

theorem decode_message {msg : List KnownBlock} {p : Poll}
    (h : decode msg = some p) : p.message = msg := by
  obtain ⟨pm, pmu, pan, plk⟩ := p
  unfold decode at h
  cases hst : sectionText msg.head? with
  | none => rw [hst] at h; exact absurd h (by simp)
  | some title =>
    rw [hst] at h
    simp only [Option.some_bind] at h
    split at h
    · cases hs2 : sectionText (msg.get? (getDividerId msg + 1).toNat) with
      | none => rw [hs2] at h; exact absurd h (by simp)
      | some x =>
        rw [hs2] at h
        simp at h
        exact h.1.symm
    · simp at h
      exact h.1.symm

/-- Claim C3: on a poll whose decoded locked flag is set, `vote` leaves
the entire block sequence unchanged — `applyVote` returns the input
blocks as they were, with no voter list modified and no result section
regenerated. -/
theorem c3_locked_vote_noop (msg : List KnownBlock) (p : Poll)
    (optionLabel userId : JStr) (hdec : decode msg = some p)
    (hlock : p.isLocked = true) :
    applyVote msg optionLabel userId = some msg := by
  unfold applyVote
  rw [hdec]
  simp only [Option.map_some']
  unfold vote
  rw [if_pos hlock, decode_message hdec]

/-- Witness for C3 at a concrete locked poll. -/
theorem c3_locked_vote_noop_witness :
    decode lockedMsg = some ⟨lockedMsg, false, false, true⟩
      ∧ applyVote lockedMsg (str "A") (str "U1") = some lockedMsg :=
  ⟨by decide,
   c3_locked_vote_noop lockedMsg ⟨lockedMsg, false, false, true⟩
     (str "A") (str "U1") (by decide) (by decide)⟩

/-- Counterexample to claim C9: a block sequence whose position 1 is
not AuthorContext-shaped and which has no divider at all is decoded
successfully — no error is raised, so the claimed iff fails. -/
theorem c9_counterexample :
    (decode c9msg).isSome = true
      ∧ (c9msg.get? 1).elim false isContextB = false
      ∧ divider ∉ c9msg := by decide

/-- Claim C9 as amended: decoding fails exactly when position 0 is not
a mrkdwn section, or when the block right after the last divider is
read as the lock marker but is not section-shaped (which requires the
divider not to be the final block); position 1 is never validated and
a missing divider alone never causes a failure. -/
theorem c9_decode_failure_iff (msg : List KnownBlock) :
    decode msg = none ↔
      sectionText msg.head? = none
        ∨ (((msg.length : Int) - 1 ≠ getDividerId msg)
            ∧ sectionText (msg.get? (getDividerId msg + 1).toNat) = none) := by
  unfold decode
  cases hst : sectionText msg.head? with
  | none => simp [hst]
  | some title =>
    simp only [Option.some_bind]
    split
    · rename_i hc
      cases hs2 : sectionText (msg.get? (getDividerId msg + 1).toNat) with
      | none => simp [hs2, hc]
      | some x => simp [hs2, hc]
    · rename_i hc
      simp [hc]

theorem countOcc_eq_zero_of_not_mem {x : JStr} {l : List JStr} (h : x ∉ l) :
    countOcc x l = 0 := by
  induction l with
  | nil => rfl
  | cons a rest ih =>
    have ha : a ≠ x := fun hc => h (hc ▸ List.mem_cons_self a rest)
    simp [countOcc, ha, ih (fun hc => h (List.mem_cons_of_mem a hc))]

theorem countOcc_append (x : JStr) (l1 l2 : List JStr) :
    countOcc x (l1 ++ l2) = countOcc x l1 + countOcc x l2 := by
  induction l1 with
  | nil => simp [countOcc]
  | cons a rest ih =>
    simp [countOcc, ih]
    omega

theorem countOcc_eq_one_of_nodup {x : JStr} {l : List JStr} (hnd : l.Nodup)
    (h : x ∈ l) : countOcc x l = 1 := by
  induction l with
  | nil => cases h
  | cons a rest ih =>
    have hnd' := List.nodup_cons.1 hnd
    by_cases ha : a = x
    · subst ha
      simp [countOcc, countOcc_eq_zero_of_not_mem hnd'.1]
    · have hmem : x ∈ rest := by
        rcases List.mem_cons.1 h with h' | h'
        · exact absurd h'.symm ha
        · exact h'
      simp [countOcc, ha, ih hnd'.2 hmem]

theorem countOcc_eraseFirst {u : JStr} {l : List JStr} (h : u ∈ l) :
    countOcc u (eraseFirst u l) + 1 = countOcc u l := by
  induction l with
  | nil => cases h
  | cons a rest ih =>
    by_cases ha : a = u
    · subst ha
      simp [eraseFirst, countOcc]
      omega
    · have hmem : u ∈ rest := by
        rcases List.mem_cons.1 h with h' | h'
        · exact absurd h'.symm ha
        · exact h'
      simp only [eraseFirst, if_neg ha, countOcc]
      rw [← ih hmem]
      omega

/-- Counterexample to claim C4: a single-choice poll with the user's
vote in two option groups loses both votes in one `resetVote` call —
the `return true` break only exits the inner loop, so more than one
vote can be removed per call. -/
theorem c4_counterexample :
    (decode twoGroupMsg).map Poll.multiple = some false
      ∧ applyReset twoGroupMsg (str "U1")
        = some [sectionBlock (str "T"), contextBlock (str "Asked by: <@U9>"),
            actions [button (str "A") (str " ")],
            actions [button (str "B") (str " ")],
            controlMenu, divider] := by decide

theorem userVoteCount_cons (u : JStr) (o : JStr × List JStr)
    (g : List (JStr × List JStr)) :
    userVoteCount u (o :: g) = countOcc u o.2 + userVoteCount u g := by
  simp [userVoteCount]

theorem resetGroup_single_count (u : JStr) (g : List (JStr × List JStr)) :
    userVoteCount u g ≤ userVoteCount u (resetGroup false u g) + 1 := by
  induction g with
  | nil => simp [resetGroup]
  | cons o rest ih =>
    by_cases hmem : u ∈ o.2
    · have hc := countOcc_eraseFirst hmem
      simp only [resetGroup, if_pos hmem, Bool.false_eq_true, if_false,
        userVoteCount_cons]
      omega
    · have hz : countOcc u o.2 = 0 := countOcc_eq_zero_of_not_mem hmem
      simp only [resetGroup, if_neg hmem, userVoteCount_cons, hz]
      omega

theorem resetGroup_multiple_not_mem (u : JStr) (g : List (JStr × List JStr))
    (hnd : ∀ o ∈ g, o.2.Nodup) :
    ∀ o ∈ resetGroup true u g, u ∉ o.2 := by
  induction g with
  | nil => simp [resetGroup]
  | cons o rest ih =>
    intro o' ho'
    by_cases hmem : u ∈ o.2
    · simp only [resetGroup, if_pos hmem, if_pos rfl] at ho'
      rcases List.mem_cons.1 ho' with rfl | h'
      · exact not_mem_eraseFirst_of_nodup (hnd o (List.mem_cons_self o rest))
      · exact ih (fun o'' h'' => hnd o'' (List.mem_cons_of_mem o h'')) o' h'
    · simp only [resetGroup, if_neg hmem] at ho'
      rcases List.mem_cons.1 ho' with rfl | h'
      · exact hmem
      · exact ih (fun o'' h'' => hnd o'' (List.mem_cons_of_mem o h'')) o' h'

/-- Claim C4 as amended: `resetVote` scans each option group in order;
within a group it removes the user from the first option holding them
and, in single-choice mode, stops scanning only that group while
continuing with later groups — so at most one vote is removed per
group, not per call; in multiple-choice mode it removes the user's
occurrence from every option; in both modes the result section is
regenerated (replaced by a fresh tally) even when no removal occurred. -/
theorem c4_reset_amended (t a u : JStr) (gs : List (List (JStr × List JStr)))
    {rs : List KnownBlock} (hw : wfGroups gs) (hnd : nodupVoters gs) (hu : wfUser u)
    (hrs : sectionsOnly rs) (hlk : lockedOf rs = false) :
    applyReset (stdMsg t a gs rs) u =
      some (stdMsg t a
        (gs.map (resetGroup (jsIncludes t (str "(Multiple Answers)")) u))
        (tallyOf (jsIncludes t (str "(Anonymous)")) false
          (gs.map (resetGroup (jsIncludes t (str "(Multiple Answers)")) u))))
      ∧ (∀ g ∈ gs, userVoteCount u g ≤ userVoteCount u (resetGroup false u g) + 1)
      ∧ (∀ g ∈ gs, ∀ o ∈ resetGroup true u g, u ∉ o.2) := by
  refine ⟨applyReset_stdMsg t a u gs hw hu hrs hlk, ?_, ?_⟩
  · intro g _
    exact resetGroup_single_count u g
  · intro g hg
    exact resetGroup_multiple_not_mem u g (hnd g hg)

/-- Witness for the amended C4 at a concrete two-group poll. -/
theorem c4_reset_amended_witness :
    wfGroups c4gs ∧ wfUser (str "U1")
      ∧ (applyReset (stdMsg (str "T") (str "Asked by: <@U9>") c4gs []) (str "U1")
          = some (stdMsg (str "T") (str "Asked by: <@U9>")
              (c4gs.map
                (resetGroup (jsIncludes (str "T") (str "(Multiple Answers)")) (str "U1")))
              (tallyOf (jsIncludes (str "T") (str "(Anonymous)")) false
                (c4gs.map
                  (resetGroup (jsIncludes (str "T") (str "(Multiple Answers)"))
                    (str "U1")))))
          ∧ (∀ g ∈ c4gs, userVoteCount (str "U1") g
              ≤ userVoteCount (str "U1") (resetGroup false (str "U1") g) + 1)
          ∧ (∀ g ∈ c4gs, ∀ o ∈ resetGroup true (str "U1") g, (str "U1") ∉ o.2)) :=
  ⟨by decide, by decide,
   c4_reset_amended (str "T") (str "Asked by: <@U9>") (str "U1") c4gs
     (by decide) (by decide) (by decide) (by decide) (by decide)⟩

/-- Claim C10: options are identified by label text only. With two
options carrying the same label, one `vote` call with that label
appends the user to both voter lists, while the tally keys votes by
label, so the result region holds exactly one line for the label,
built from the voters of the last such option scanned — the first
option's voters are omitted from the results. -/
theorem c10_duplicate_labels (t a L u : JStr) (v1 v2 : List JStr)
    {rs : List KnownBlock}
    (h1 : ∀ v ∈ v1, ',' ∉ v) (h2 : ∀ v ∈ v2, ',' ∉ v)
    (hu : wfUser u) (hu1 : u ∉ v1) (hu2 : u ∉ v2)
    (hrs : sectionsOnly rs) (hlk : lockedOf rs = false) :
    applyVote (stdMsg t a [[(L, v1), (L, v2)]] rs) L u =
      some (stdMsg t a [[(L, v1 ++ [u]), (L, v2 ++ [u])]]
        [sectionBlock
          (lineText (jsIncludes t (str "(Anonymous)")) false L (v2 ++ [u]))]) := by
  have hw : wfGroups [[(L, v1), (L, v2)]] := by
    intro g hg o ho
    simp only [List.mem_singleton] at hg
    subst hg
    rcases List.mem_cons.1 ho with rfl | ho'
    · exact h1
    · rcases List.mem_cons.1 ho' with rfl | ho''
      · exact h2
      · cases ho''
  rw [applyVote_stdMsg t a L u [[(L, v1), (L, v2)]] hw hu hrs hlk]
  have hupd : ([[(L, v1), (L, v2)]].map
      (List.map (voteUpd (jsIncludes t (str "(Multiple Answers)")) L u)))
      = [[(L, v1 ++ [u]), (L, v2 ++ [u])]] := by
    simp [voteUpd, hu1, hu2]
  rw [hupd]
  have hcf2 : ∀ v ∈ v2 ++ [u], ',' ∉ v := by
    intro v hv
    rcases List.mem_append.1 hv with hv' | hv'
    · exact h2 v hv'
    · rw [List.mem_singleton.1 hv']
      exact hu.1
  have htally : tallyOf (jsIncludes t (str "(Anonymous)")) false
      [[(L, v1 ++ [u]), (L, v2 ++ [u])]]
      = [sectionBlock
          (lineText (jsIncludes t (str "(Anonymous)")) false L (v2 ++ [u]))] := by
    simp [tallyOf, optPair, objKeys, firstKeysAux, jsEnumKeys_singleton,
      lookupLast, lookupFirst,
      buildVoteTally_voteValue (jsIncludes t (str "(Anonymous)")) false L hcf2,
      tallyOpt]
  rw [htally]

/-- Witness for C10 at a concrete pair of same-label options. -/
theorem c10_duplicate_labels_witness :
    wfUser (str "U1") ∧ sectionsOnly ([] : List KnownBlock)
      ∧ applyVote (stdMsg (str "Q?") (str "Asked by: <@U9>")
          [[(str "X", []), (str "X", [])]] []) (str "X") (str "U1") =
        some (stdMsg (str "Q?") (str "Asked by: <@U9>")
          [[(str "X", [] ++ [str "U1"]), (str "X", [] ++ [str "U1"])]]
          [sectionBlock
            (lineText (jsIncludes (str "Q?") (str "(Anonymous)")) false (str "X")
              ([] ++ [str "U1"]))]) :=
  ⟨by decide, by decide,
   c10_duplicate_labels (str "Q?") (str "Asked by: <@U9>") (str "X") (str "U1") [] []
     (by decide) (by decide) (by decide) (by decide) (by decide) (by decide)
     (by decide)⟩

/-- Counterexample to claim C7: with two options sharing the label
`X`, the first holding one voter, result generation emits no line at
all — the tally keys by label and the last same-label option (empty)
wins, so an option with a voter gets no line. -/
theorem c7_counterexample :
    (decode (stdMsg (str "Q?") (str "Asked by: <@U9>")
        [[(str "X", [str "U1"]), (str "X", [])]] [])).map
      (fun p => generateResults p false) = some [] := by decide

theorem filterMap_tallyOpt_eq (anon o : Bool) (l : List (JStr × List JStr)) :
    l.filterMap (tallyOpt anon o)
      = (l.filter fun o' => !(o'.2.isEmpty)).map
          (fun o' => sectionBlock (lineText anon o o'.1 o'.2)) := by
  induction l with
  | nil => rfl
  | cons o' rest ih =>
    by_cases he : o'.2 = []
    · simp [tallyOpt, he, ih]
    · simp only [List.filterMap_cons, tallyOpt, if_neg he]
      rw [List.filter_cons_of_pos (by simpa [List.isEmpty_iff] using he)]
      simp [ih]

/-- Claim C7 as amended (option labels pairwise distinct): result
generation yields, after the lock marker when the poll is locked,
exactly the lines of the options with a non-empty voter list, one line
each in the `lineText` format, options with no voters being skipped;
the lines come in the order JS `for-in` enumerates the labels as keys
of the `votes` object — options whose label is a canonical array-index
string first in ascending numeric order, then the rest in poll
order. -/
theorem c7_results_amended (t a : JStr) (gs : List (List (JStr × List JStr)))
    {rs : List KnownBlock} (hw : wfGroups gs) (hd : distinctLabels gs)
    (hrs : sectionsOnly rs) (o : Bool) {p : Poll}
    (hdec : decode (stdMsg t a gs rs) = some p) :
    generateResults p o =
      (if p.isLocked then [sectionBlock (str ":lock:")] else [])
        ++ ((jsEnumOpts gs.flatten).filter fun o' => !(o'.2.isEmpty)).map
            (fun o' => sectionBlock (lineText p.anonymous o o'.1 o'.2)) := by
  rw [decode_stdMsg t a gs hrs] at hdec
  have hp := Option.some.inj hdec
  subst hp
  rw [generateResults_stdMsg t a gs hrs _ _ _ o,
    tallyOf_eq_filterMap _ o hw hd, filterMap_tallyOpt_eq]

/-- Witness for the amended C7 at a concrete two-option poll. -/
theorem c7_results_amended_witness :
    wfGroups c7gs ∧ distinctLabels c7gs
      ∧ decode (stdMsg (str "Q?") (str "Asked by: <@U9>") c7gs []) = some c7poll
      ∧ generateResults c7poll false =
          (if c7poll.isLocked then [sectionBlock (str ":lock:")] else [])
            ++ ((jsEnumOpts c7gs.flatten).filter fun o' => !(o'.2.isEmpty)).map
                (fun o' => sectionBlock (lineText c7poll.anonymous false o'.1 o'.2)) :=
  ⟨by decide, by decide, by decide,
   @c7_results_amended (str "Q?") (str "Asked by: <@U9>") c7gs [] (by decide)
     (by decide) (by decide) false c7poll (by decide)⟩

/-- Counterexample to claim C6: on an anonymous poll whose option label
equals a voter's identifier, the redacted results still contain that
identifier as a substring (through the label), so "never contains a
voter identifier substring" fails. -/
theorem c6_counterexample :
    (decode (stdMsg (str "Q *(Anonymous)* ") (str "Asked by: <@U9>")
        [[(str "U2", [str "U2"])]] [])).map
      (fun p => (p.anonymous, generateResults p false))
      = some (true, [sectionBlock (str "*1* U2 » ~HIDDEN~")])
      ∧ (str "U2") <:+: (str "*1* U2 » ~HIDDEN~") := by decide

theorem joinComma_cons_cons (a b : JStr) (r : List JStr) :
    joinComma (a :: b :: r) = a ++ [','] ++ joinComma (b :: r) := by
  simp [joinComma, List.intercalate, List.intersperse_cons_cons]

theorem isInfix_append_left (y : JStr) {x z : JStr} (h : x <:+: z) :
    x <:+: y ++ z := by
  obtain ⟨s, t, h'⟩ := h
  exact ⟨y ++ s, t, by rw [← h']; simp⟩

theorem infix_joinComma_of_mem {x : JStr} {l : List JStr} (h : x ∈ l) :
    x <:+: joinComma l := by
  induction l with
  | nil => cases h
  | cons a rest ih =>
    rcases List.mem_cons.1 h with rfl | h'
    · cases rest with
      | nil =>
        rw [show joinComma [x] = x from by simp [joinComma, List.intercalate]]
      | cons b r =>
        rw [joinComma_cons_cons]
        exact ⟨[], [','] ++ joinComma (b :: r), by simp⟩
    · cases rest with
      | nil => cases h'
      | cons b r =>
        rw [joinComma_cons_cons]
        rw [List.append_assoc]
        exact isInfix_append_left a (isInfix_append_left [','] (ih h'))

/-- Claim C6 as amended (option labels pairwise distinct): on an
anonymous unlocked poll, every line of `generateResults p false` ends
in the literal `~HIDDEN~` instead of the voter names — a voter
identifier can only surface through an option's label or count text —
the lines coming in the `for-in` enumeration order of the labels
(array-index labels first in ascending numeric order, then the rest in
poll order); `generateResults p true` contains, for every voter of
every option, a line holding that voter's identifier as a substring. -/
theorem c6_anonymity_amended (t a : JStr) (gs : List (List (JStr × List JStr)))
    {rs : List KnownBlock} (hw : wfGroups gs) (hd : distinctLabels gs)
    (hrs : sectionsOnly rs) (hlk : lockedOf rs = false)
    (hanon : jsIncludes t (str "(Anonymous)") = true) {p : Poll}
    (hdec : decode (stdMsg t a gs rs) = some p) :
    (generateResults p false
        = ((jsEnumOpts gs.flatten).filter fun o' => !(o'.2.isEmpty)).map
            (fun o' => sectionBlock (str "*" ++ natToStr o'.2.length ++ str "* "
              ++ o'.1 ++ str " » " ++ str "~HIDDEN~")))
      ∧ (∀ o' ∈ gs.flatten, ∀ v ∈ o'.2,
          ∃ x, sectionBlock x ∈ generateResults p true ∧ v <:+: x) := by
  rw [decode_stdMsg t a gs hrs] at hdec
  have hp := Option.some.inj hdec
  subst hp
  constructor
  · rw [generateResults_stdMsg t a gs hrs _ _ _ false,
      tallyOf_eq_filterMap _ false hw hd, filterMap_tallyOpt_eq, hlk]
    simp only [Bool.false_eq_true, if_false, List.nil_append]
    apply List.map_congr_left
    intro o' _
    simp [lineText, hanon]
  · intro o' ho' v hv
    refine ⟨lineText (jsIncludes t (str "(Anonymous)")) true o'.1 o'.2, ?_, ?_⟩
    · rw [generateResults_stdMsg t a gs hrs _ _ _ true,
        tallyOf_eq_filterMap _ true hw hd]
      apply List.mem_append_right
      apply List.mem_filterMap.2
      refine ⟨o', mem_jsEnumOpts.2 ho', ?_⟩
      have hne : o'.2 ≠ [] := fun hc => by rw [hc] at hv; cases hv
      simp [tallyOpt, hne]
    · have hwrap : v <:+: str "<@" ++ v ++ str ">" :=
        ⟨str "<@", str ">", by simp⟩
      have hnames : (str "<@" ++ v ++ str ">")
          <:+: joinComma (o'.2.map fun k => str "<@" ++ k ++ str ">") :=
        infix_joinComma_of_mem (List.mem_map_of_mem _ hv)
      have hline : v <:+: lineText (jsIncludes t (str "(Anonymous)")) true o'.1 o'.2 := by
        unfold lineText
        rw [if_pos (by simp)]
        exact isInfix_append_left _ (hwrap.trans hnames)
      exact hline

/-- Witness for the amended C6 at a concrete anonymous poll. -/
theorem c6_anonymity_amended_witness :
    wfGroups c7gs ∧ distinctLabels c7gs
      ∧ jsIncludes (str "Q *(Anonymous)* ") (str "(Anonymous)") = true
      ∧ ((generateResults ⟨stdMsg (str "Q *(Anonymous)* ") (str "Asked by: <@U9>")
            c7gs [], false, true, false⟩ false
          = ((jsEnumOpts c7gs.flatten).filter fun o' => !(o'.2.isEmpty)).map
              (fun o' => sectionBlock (str "*" ++ natToStr o'.2.length ++ str "* "
                ++ o'.1 ++ str " » " ++ str "~HIDDEN~")))
        ∧ (∀ o' ∈ c7gs.flatten, ∀ v ∈ o'.2,
            ∃ x, sectionBlock x ∈ generateResults
              ⟨stdMsg (str "Q *(Anonymous)* ") (str "Asked by: <@U9>") c7gs [],
                false, true, false⟩ true ∧ v <:+: x)) :=
  ⟨by decide, by decide, by decide,
   @c6_anonymity_amended (str "Q *(Anonymous)* ") (str "Asked by: <@U9>") c7gs []
     (by decide) (by decide) (by decide) (by decide) (by decide)
     ⟨stdMsg (str "Q *(Anonymous)* ") (str "Asked by: <@U9>") c7gs [], false, true, false⟩
     (by decide)⟩

theorem voteUpd_fst (m : Bool) (B u : JStr) (o : JStr × List JStr) :
    (voteUpd m B u o).1 = o.1 := by
  unfold voteUpd
  split_ifs <;> rfl

theorem voteUpd_comma_free {m : Bool} {B u : JStr} {o : JStr × List JStr}
    (ho : ∀ v ∈ o.2, ',' ∉ v) (hu : ',' ∉ u) :
    ∀ v ∈ (voteUpd m B u o).2, ',' ∉ v := by
  unfold voteUpd
  split_ifs
  · intro v hv
    exact ho v (mem_of_mem_eraseFirst hv)
  · intro v hv
    rcases List.mem_append.1 hv with hv' | hv'
    · exact ho v hv'
    · rw [List.mem_singleton.1 hv']
      exact hu
  · exact ho

theorem voteUpd_nodup {m : Bool} {B u : JStr} {o : JStr × List JStr}
    (ho : o.2.Nodup) : (voteUpd m B u o).2.Nodup := by
  unfold voteUpd
  split_ifs with h1 h2
  · exact nodup_eraseFirst ho
  · simp [List.nodup_append, ho, h2.2]
  · exact ho

theorem wfGroups_voteUpd {gs : List (List (JStr × List JStr))} {m : Bool}
    {B u : JStr} (hw : wfGroups gs) (hu : ',' ∉ u) :
    wfGroups (gs.map (List.map (voteUpd m B u))) := by
  intro g hg o ho
  obtain ⟨g0, hg0, rfl⟩ := List.mem_map.1 hg
  obtain ⟨o0, ho0, rfl⟩ := List.mem_map.1 ho
  exact voteUpd_comma_free (hw g0 hg0 o0 ho0) hu

theorem flatten_map_voteUpd (m : Bool) (B u : JStr)
    (gs : List (List (JStr × List JStr))) :
    (gs.map (List.map (voteUpd m B u))).flatten = gs.flatten.map (voteUpd m B u) := by
  rw [List.map_flatten]

theorem distinctLabels_voteUpd {gs : List (List (JStr × List JStr))} (m : Bool)
    (B u : JStr) (hd : distinctLabels gs) :
    distinctLabels (gs.map (List.map (voteUpd m B u))) := by
  unfold distinctLabels
  rw [flatten_map_voteUpd, List.map_map,
    show (Prod.fst ∘ voteUpd m B u) = Prod.fst from funext fun o => voteUpd_fst m B u o]
  exact hd

theorem eq_of_fst_eq_of_nodup {l : List (JStr × List JStr)}
    (hnd : (l.map Prod.fst).Nodup) {o1 o2 : JStr × List JStr}
    (h1 : o1 ∈ l) (h2 : o2 ∈ l) (h : o1.1 = o2.1) : o1 = o2 := by
  induction l with
  | nil => cases h1
  | cons a rest ih =>
    simp only [List.map_cons] at hnd
    have hnd' := List.nodup_cons.1 hnd
    rcases List.mem_cons.1 h1 with rfl | h1'
    · rcases List.mem_cons.1 h2 with rfl | h2'
      · rfl
      · exact absurd (h ▸ List.mem_map_of_mem Prod.fst h2') hnd'.1
    · rcases List.mem_cons.1 h2 with rfl | h2'
      · exact absurd (h ▸ List.mem_map_of_mem Prod.fst h1') hnd'.1
      · exact ih hnd'.2 h1' h2'

theorem sum_count_labels (B : JStr) (f : JStr × List JStr → Nat) :
    ∀ (l : List (JStr × List JStr)),
      (∀ o ∈ l, f o = if o.1 = B then 1 else 0) →
      (l.map f).sum = countOcc B (l.map Prod.fst) := by
  intro l
  induction l with
  | nil => intro _; rfl
  | cons o rest ih =>
    intro h
    have ho := h o (List.mem_cons_self o rest)
    rw [List.map_cons, List.map_cons, List.sum_cons,
      ih (fun o' h' => h o' (List.mem_cons_of_mem o h')), ho]
    simp only [countOcc]

/-- Counterexample to claim C2: on an anonymous unlocked single-choice
poll the vote does move from A to B, but the result line for B is
redacted and does not mention the user, so the claimed tally sentence
fails. -/
theorem c2_counterexample :
    applyVote (stdMsg (str "Q *(Anonymous)* ") (str "Asked by: <@U9>")
        [[(str "A", [str "U1"]), (str "B", [])]] []) (str "B") (str "U1")
      = some (stdMsg (str "Q *(Anonymous)* ") (str "Asked by: <@U9>")
          [[(str "A", []), (str "B", [str "U1"])]]
          [sectionBlock (str "*1* B » ~HIDDEN~")])
      ∧ ¬ (str "U1") <:+: (str "*1* B » ~HIDDEN~") := by decide

/-- Claim C2 as amended (poll not anonymous, labels pairwise
distinct): on an unlocked single-choice poll in which user `u` holds a
vote on option A, voting for option B removes `u` from A's voter list,
appends `u` to B's, leaves `u` exactly one vote across all options,
and the regenerated results contain the line for B mentioning `u`;
when A had no other voter, no emitted line carries label A. -/
theorem c2_exclusivity_amended (t a A B u : JStr) (vsA vsB : List JStr)
    (gs : List (List (JStr × List JStr))) {rs : List KnownBlock}
    (hw : wfGroups gs) (hnd : nodupVoters gs) (hu : wfUser u)
    (hrs : sectionsOnly rs) (hlk : lockedOf rs = false)
    (hsingle : jsIncludes t (str "(Multiple Answers)") = false)
    (hanon : jsIncludes t (str "(Anonymous)") = false)
    (hd : distinctLabels gs) (hAB : A ≠ B)
    (hA : (A, vsA) ∈ gs.flatten) (hB : (B, vsB) ∈ gs.flatten)
    (huA : u ∈ vsA) (huB : u ∉ vsB) :
    applyVote (stdMsg t a gs rs) B u
        = some (stdMsg t a (gs.map (List.map (voteUpd false B u)))
            (tallyOf false false (gs.map (List.map (voteUpd false B u)))))
      ∧ (A, eraseFirst u vsA) ∈ (gs.map (List.map (voteUpd false B u))).flatten
      ∧ (B, vsB ++ [u]) ∈ (gs.map (List.map (voteUpd false B u))).flatten
      ∧ userVoteCount u (gs.map (List.map (voteUpd false B u))).flatten = 1
      ∧ sectionBlock (lineText false false B (vsB ++ [u]))
          ∈ tallyOf false false (gs.map (List.map (voteUpd false B u)))
      ∧ u <:+: lineText false false B (vsB ++ [u])
      ∧ (vsA = [u] →
          A ∉ ((gs.map (List.map (voteUpd false B u))).flatten.filter
            (fun o' => !(o'.2.isEmpty))).map Prod.fst) := by
  have hFA : voteUpd false B u (A, vsA) = (A, eraseFirst u vsA) := by
    simp [voteUpd, huA, hAB]
  have hFB : voteUpd false B u (B, vsB) = (B, vsB ++ [u]) := by
    simp [voteUpd, huB]
  have hflat := flatten_map_voteUpd false B u gs
  refine ⟨?_, ?_, ?_, ?_, ?_, ?_, ?_⟩
  · have hmaster := applyVote_stdMsg t a B u gs hw hu hrs hlk
    rw [hsingle, hanon] at hmaster
    exact hmaster
  · rw [hflat]
    exact hFA ▸ List.mem_map_of_mem (voteUpd false B u) hA
  · rw [hflat]
    exact hFB ▸ List.mem_map_of_mem (voteUpd false B u) hB
  · rw [hflat]
    unfold userVoteCount
    rw [List.map_map]
    have hpt : ∀ o ∈ gs.flatten,
        ((fun o' : JStr × List JStr => countOcc u o'.2) ∘ voteUpd false B u) o
          = if o.1 = B then 1 else 0 := by
      intro o ho
      simp only [Function.comp_apply]
      obtain ⟨g, hg, hog⟩ := List.mem_flatten.1 ho
      have hndo : o.2.Nodup := hnd g hg o hog
      by_cases hlB : o.1 = B
      · have heq : o = (B, vsB) := eq_of_fst_eq_of_nodup hd ho hB (by rw [hlB])
        subst heq
        rw [hFB]
        show countOcc u (vsB ++ [u]) = if B = B then 1 else 0
        rw [if_pos rfl, countOcc_append, countOcc_eq_zero_of_not_mem huB]
        simp [countOcc]
      · rw [if_neg hlB]
        by_cases hmem : u ∈ o.2
        · have hc1 : countOcc u o.2 = 1 := countOcc_eq_one_of_nodup hndo hmem
          have hce := countOcc_eraseFirst hmem
          have hvu : voteUpd false B u o = (o.1, eraseFirst u o.2) := by
            simp [voteUpd, hmem, hlB]
          rw [hvu]
          show countOcc u (eraseFirst u o.2) = 0
          omega
        · have hvu : voteUpd false B u o = o := by
            simp [voteUpd, hmem, hlB]
          rw [hvu]
          exact countOcc_eq_zero_of_not_mem hmem
    rw [sum_count_labels B _ gs.flatten hpt]
    exact countOcc_eq_one_of_nodup hd (List.mem_map_of_mem Prod.fst hB)
  · rw [tallyOf_eq_filterMap _ false (wfGroups_voteUpd hw hu.1)
      (distinctLabels_voteUpd false B u hd)]
    apply List.mem_filterMap.2
    refine ⟨(B, vsB ++ [u]), ?_, ?_⟩
    · apply mem_jsEnumOpts.2
      rw [hflat]
      exact hFB ▸ List.mem_map_of_mem (voteUpd false B u) hB
    · simp [tallyOpt]
  · unfold lineText
    rw [if_pos (by simp)]
    have hwrap : u <:+: str "<@" ++ u ++ str ">" := ⟨str "<@", str ">", by simp⟩
    have hmemu : u ∈ vsB ++ [u] := List.mem_append_right _ (List.mem_singleton_self u)
    exact isInfix_append_left _
      (hwrap.trans (infix_joinComma_of_mem
        (List.mem_map_of_mem (fun k => str "<@" ++ k ++ str ">") hmemu)))
  · intro hvsA hcon
    obtain ⟨o', ho', hfst⟩ := List.mem_map.1 hcon
    obtain ⟨ho'mem, hne⟩ := List.mem_filter.1 ho'
    rw [hflat] at ho'mem
    obtain ⟨o, ho, hFo⟩ := List.mem_map.1 ho'mem
    have hoA : o.1 = A := by
      rw [← hfst, ← hFo, voteUpd_fst]
    have heqA : o = (A, vsA) := eq_of_fst_eq_of_nodup hd ho hA (by rw [hoA])
    rw [heqA, hvsA] at hFo
    have : voteUpd false B u (A, [u]) = (A, []) := by
      simp [voteUpd, hAB, eraseFirst]
    rw [this] at hFo
    rw [← hFo] at hne
    simp at hne

/-- Witness for the amended C2 at a concrete single-choice poll. -/
theorem c2_exclusivity_amended_witness :
    wfGroups c7gs ∧ wfUser (str "U1")
      ∧ (str "A") ≠ (str "B")
      ∧ ((str "A"), [str "U1"]) ∈ c7gs.flatten
      ∧ ((str "B"), ([] : List JStr)) ∈ c7gs.flatten
      ∧ (applyVote (stdMsg (str "Q?") (str "Asked by: <@U9>") c7gs [])
            (str "B") (str "U1")
          = some (stdMsg (str "Q?") (str "Asked by: <@U9>")
              (c7gs.map (List.map (voteUpd false (str "B") (str "U1"))))
              (tallyOf false false
                (c7gs.map (List.map (voteUpd false (str "B") (str "U1"))))))
        ∧ ((str "A"), eraseFirst (str "U1") [str "U1"])
            ∈ (c7gs.map (List.map (voteUpd false (str "B") (str "U1")))).flatten
        ∧ ((str "B"), [] ++ [str "U1"])
            ∈ (c7gs.map (List.map (voteUpd false (str "B") (str "U1")))).flatten
        ∧ userVoteCount (str "U1")
            (c7gs.map (List.map (voteUpd false (str "B") (str "U1")))).flatten = 1
        ∧ sectionBlock (lineText false false (str "B") ([] ++ [str "U1"]))
            ∈ tallyOf false false
                (c7gs.map (List.map (voteUpd false (str "B") (str "U1"))))
        ∧ (str "U1") <:+: lineText false false (str "B") ([] ++ [str "U1"])
        ∧ ([str "U1"] = [str "U1"] →
            (str "A") ∉ ((c7gs.map
                (List.map (voteUpd false (str "B") (str "U1")))).flatten.filter
              (fun o' => !(o'.2.isEmpty))).map Prod.fst)) :=
  ⟨by decide, by decide, by decide, by decide, by decide,
   @c2_exclusivity_amended (str "Q?") (str "Asked by: <@U9>") (str "A") (str "B")
     (str "U1") [str "U1"] [] c7gs [] (by decide) (by decide) (by decide)
     (by decide) (by decide) (by decide) (by decide) (by decide) (by decide)
     (by decide) (by decide) (by decide) (by decide)⟩

theorem buildVoteTally_shape (anon o : Bool) (v k : JStr) {b : KnownBlock}
    (h : buildVoteTally anon o v k = some b) :
    ∃ x, b = sectionBlock x ∧ x.head? = some '*' := by
  simp only [buildVoteTally] at h
  split at h
  · cases h
  · exact ⟨_, (Option.some.inj h).symm, rfl⟩

theorem sectionsOnly_tallyOf (anon o : Bool) (gs : List (List (JStr × List JStr))) :
    sectionsOnly (tallyOf anon o gs) := by
  intro b hb
  simp only [tallyOf] at hb
  obtain ⟨k, _, hbv⟩ := List.mem_filterMap.1 hb
  obtain ⟨x, rfl, _⟩ := buildVoteTally_shape _ _ _ _ hbv
  rfl

theorem lockedOf_tallyOf (anon o : Bool) (gs : List (List (JStr × List JStr))) :
    lockedOf (tallyOf anon o gs) = false := by
  cases hts : tallyOf anon o gs with
  | nil => rfl
  | cons b rest =>
    have hb : b ∈ tallyOf anon o gs := by
      rw [hts]
      exact List.mem_cons_self b rest
    simp only [tallyOf] at hb
    obtain ⟨k, _, hbv⟩ := List.mem_filterMap.1 hb
    obtain ⟨x, rfl, hx⟩ := buildVoteTally_shape _ _ _ _ hbv
    simp only [lockedOf]
    apply decide_eq_false
    intro hc
    rw [hc] at hx
    exact absurd hx (by decide)

theorem voteUpd_idem {B u : JStr} {o : JStr × List JStr} (hnd : o.2.Nodup) :
    voteUpd false B u (voteUpd false B u o) = voteUpd false B u o := by
  obtain ⟨l, vs⟩ := o
  by_cases hlB : l = B
  · subst hlB
    by_cases hmem : u ∈ vs
    · have h1 : voteUpd false l u (l, vs) = (l, vs) := by simp [voteUpd, hmem]
      rw [h1, h1]
    · have h1 : voteUpd false l u (l, vs) = (l, vs ++ [u]) := by simp [voteUpd, hmem]
      rw [h1]
      simp [voteUpd]
  · by_cases hmem : u ∈ vs
    · have h1 : voteUpd false B u (l, vs) = (l, eraseFirst u vs) := by
        simp [voteUpd, hmem, hlB]
      rw [h1]
      have hnm : u ∉ eraseFirst u vs := not_mem_eraseFirst_of_nodup hnd
      simp [voteUpd, hnm, hlB]
    · have h1 : voteUpd false B u (l, vs) = (l, vs) := by simp [voteUpd, hmem, hlB]
      rw [h1]
      exact h1

theorem nodupVoters_voteUpd {gs : List (List (JStr × List JStr))} (m : Bool)
    (B u : JStr) (hnd : nodupVoters gs) :
    nodupVoters (gs.map (List.map (voteUpd m B u))) := by
  intro g hg o ho
  obtain ⟨g0, hg0, rfl⟩ := List.mem_map.1 hg
  obtain ⟨o0, ho0, rfl⟩ := List.mem_map.1 ho
  exact voteUpd_nodup (hnd g0 hg0 o0 ho0)

/-- Claim C8: on an unlocked single-choice poll, voting twice with the
same user and same option label produces identical block sequences
after the first and after the second call — re-clicking is a no-op,
not a toggle-off. -/
theorem c8_vote_idempotent (t a B u : JStr) (gs : List (List (JStr × List JStr)))
    {rs : List KnownBlock} (hw : wfGroups gs) (hnd : nodupVoters gs)
    (hu : wfUser u) (hrs : sectionsOnly rs) (hlk : lockedOf rs = false)
    (hsingle : jsIncludes t (str "(Multiple Answers)") = false) :
    ∃ m1, applyVote (stdMsg t a gs rs) B u = some m1
      ∧ applyVote m1 B u = some m1 := by
  have h1 := applyVote_stdMsg t a B u gs hw hu hrs hlk
  rw [hsingle] at h1
  refine ⟨_, h1, ?_⟩
  have h2 := applyVote_stdMsg t a B u (gs.map (List.map (voteUpd false B u)))
    (wfGroups_voteUpd hw hu.1) hu
    (sectionsOnly_tallyOf (jsIncludes t (str "(Anonymous)")) false
      (gs.map (List.map (voteUpd false B u))))
    (lockedOf_tallyOf (jsIncludes t (str "(Anonymous)")) false
      (gs.map (List.map (voteUpd false B u))))
  rw [hsingle] at h2
  rw [h2]
  have hgs2 : (gs.map (List.map (voteUpd false B u))).map
      (List.map (voteUpd false B u)) = gs.map (List.map (voteUpd false B u)) := by
    rw [List.map_map]
    apply List.map_congr_left
    intro g hg
    simp only [Function.comp_apply, List.map_map]
    apply List.map_congr_left
    intro o ho
    simp only [Function.comp_apply]
    exact voteUpd_idem (hnd g hg o ho)
  rw [hgs2]

/-- Witness for C8 at a concrete single-choice poll. -/
theorem c8_vote_idempotent_witness :
    wfGroups c7gs ∧ nodupVoters c7gs ∧ wfUser (str "U1")
      ∧ jsIncludes (str "Q?") (str "(Multiple Answers)") = false
      ∧ ∃ m1, applyVote (stdMsg (str "Q?") (str "Asked by: <@U9>") c7gs [])
            (str "B") (str "U1") = some m1
          ∧ applyVote m1 (str "B") (str "U1") = some m1 :=
  ⟨by decide, by decide, by decide, by decide,
   @c8_vote_idempotent (str "Q?") (str "Asked by: <@U9>") (str "B") (str "U1")
     c7gs [] (by decide) (by decide) (by decide) (by decide) (by decide)
     (by decide)⟩

/-- Counterexample to claim C5: the lunch scenario proceeds as claimed
except for the exact line texts — the rendered lines are
`*1* Pizza » <@U2>` and `*1* Tacos » <@U2>` (bold count markup), and
the quoted texts `1 Pizza » <@U2>` / `1 Tacos » <@U2>` appear neither
as a block text nor as a substring of the rendered lines. -/
theorem c5_counterexample :
    ((applyVote lunchMsg (str "Pizza") (str "U2")).bind
        fun m => applyVote m (str "Tacos") (str "U2")) = some lunchVoted
      ∧ sectionBlock (str "1 Pizza » <@U2>") ∉ lunchVoted
      ∧ sectionBlock (str "1 Tacos » <@U2>") ∉ lunchVoted
      ∧ ¬ (str "1 Pizza » <@U2>") <:+: (str "*1* Pizza » <@U2>")
      ∧ ¬ (str "1 Tacos » <@U2>") <:+: (str "*1* Tacos » <@U2>") := by decide

/-- Claim C5 as amended: `createPoll("<@U1>", [multiple, Lunch?, Pizza,
Tacos])` yields the title `Lunch? *(Multiple Answers)* `, exactly two
vote buttons Pizza and Tacos with zero votes, and after U2 votes for
Pizza and then for Tacos the result section contains both the line
`*1* Pizza » <@U2>` and the line `*1* Tacos » <@U2>`. -/
theorem c5_lunch_amended :
    lunchMsg = [sectionBlock (str "Lunch? *(Multiple Answers)* "),
        contextBlock (str "Asked by: <@U1>"),
        actions [button (str "Pizza") (str " "), button (str "Tacos") (str " ")],
        controlMenu, divider]
      ∧ ((applyVote lunchMsg (str "Pizza") (str "U2")).bind
          fun m => applyVote m (str "Tacos") (str "U2")) = some lunchVoted
      ∧ sectionBlock (str "*1* Pizza » <@U2>") ∈ lunchVoted
      ∧ sectionBlock (str "*1* Tacos » <@U2>") ∈ lunchVoted := by decide

/-! Substring analysis for the builder round trip (claim C1). -/

theorem infix_append_cases {m q B : JStr} (h : m <:+: q ++ B) :
    m <:+: q ∨ m <:+: B
      ∨ ∃ k, 0 < k ∧ k < m.length ∧ (m.take k) <:+ q ∧ (m.drop k) <+: B := by
  obtain ⟨x, y, hxy⟩ := h
  rw [List.append_assoc] at hxy
  rcases List.append_eq_append_iff.1 hxy.symm with ⟨a', _, ha2⟩ | ⟨c', hc1, hc2⟩
  · exact Or.inr (Or.inl ⟨a', y, by rw [ha2, List.append_assoc]⟩)
  · rcases List.append_eq_append_iff.1 hc2 with ⟨a2, hca, _⟩ | ⟨c2, hcm, hcB⟩
    · exact Or.inl ⟨x, a2, by rw [hc1, hca, List.append_assoc]⟩
    · by_cases hc0 : c' = []
      · subst hc0
        simp only [List.nil_append] at hcm
        refine Or.inr (Or.inl ?_)
        rw [hcm]
        exact List.IsPrefix.isInfix (⟨y, hcB.symm⟩ : c2 <+: B)
      · by_cases hc20 : c2 = []
        · subst hc20
          rw [List.append_nil] at hcm
          refine Or.inl ?_
          rw [hcm]
          exact List.IsSuffix.isInfix (⟨x, hc1.symm⟩ : c' <:+ q)
        · refine Or.inr (Or.inr ⟨c'.length, ?_, ?_, ?_, ?_⟩)
          · exact List.length_pos.2 hc0
          · rw [hcm, List.length_append]
            have := List.length_pos.2 hc20
            omega
          · rw [hcm, List.take_left]
            exact ⟨x, hc1.symm⟩
          · rw [hcm, List.drop_left]
            exact ⟨y, hcB.symm⟩

theorem not_infix_append {m q B : JStr} (hq : ¬ m <:+: q) (hB : ¬ m <:+: B)
    (hspan : ∀ k, k < m.length → 0 < k → ¬ ((m.drop k) <+: B)) :
    ¬ m <:+: q ++ B := by
  intro h
  rcases infix_append_cases h with h' | h' | ⟨k, hk0, hkm, _, hdrop⟩
  · exact hq h'
  · exact hB h'
  · exact hspan k hkm hk0 hdrop

theorem infix_of_mid (q pre mid post : JStr) :
    mid <:+: q ++ (pre ++ mid ++ post) :=
  ⟨q ++ pre, post, by simp [List.append_assoc]⟩

theorem mrkdwn_eq_titleOf (ps : List JStr) :
    (if jsToLower ((tokensOf ps).getD 0 []) = str "multiple"
        ∨ jsToLower ((tokensOf ps).getD 0 []) = str "anon" then
      (ps.getD 1 (str "undefined"))
        ++ appendIfMatching (tokensOf ps) (str "multiple") (str " *(Multiple Answers)* ")
        ++ appendIfMatching (tokensOf ps) (str "anon") (str " *(Anonymous)* ")
    else ps.getD 0 []) = titleOf ps := by
  by_cases hf : (jsToLower ((tokensOf ps).getD 0 []) = str "multiple"
      ∨ jsToLower ((tokensOf ps).getD 0 []) = str "anon")
  · have hfc : flagCase ps = true := decide_eq_true hf
    rw [if_pos hf]
    unfold titleOf questionLine
    rw [if_pos hfc, if_pos hfc]
    have hmm : appendIfMatching (tokensOf ps) (str "multiple") (str " *(Multiple Answers)* ")
        = (if cfgMultiple ps = true then str " *(Multiple Answers)* " else []) := by
      unfold appendIfMatching cfgMultiple
      rw [hfc]
      simp
    have haa : appendIfMatching (tokensOf ps) (str "anon") (str " *(Anonymous)* ")
        = (if cfgAnon ps = true then str " *(Anonymous)* " else []) := by
      unfold appendIfMatching cfgAnon
      rw [hfc]
      simp
    rw [hmm, haa]
  · have hfc : flagCase ps = false := decide_eq_false hf
    rw [if_neg hf]
    unfold titleOf questionLine
    rw [if_neg (by simp [hfc]), if_neg (by simp [hfc])]

theorem slashCreateMsg_shape (a : JStr) (ps : List JStr) :
    slashCreateMsg a ps
      = sectionBlock (titleOf ps) :: contextBlock (str "Asked by: " ++ a)
        :: ((buildVoteOptions ps (if titleOf ps = ps.getD 0 [] then 1 else 2)
            ++ [controlMenu]) ++ [divider]) := by
  simp only [slashCreateMsg, buildSectionBlock, buildContextBlock, controlMenu,
    mrkdwn_eq_titleOf]

theorem decode_slashCreateMsg (a : JStr) (ps : List JStr) :
    decode (slashCreateMsg a ps)
      = some ⟨slashCreateMsg a ps,
          jsIncludes (titleOf ps) (str "(Multiple Answers)"),
          jsIncludes (titleOf ps) (str "(Anonymous)"), false⟩ := by
  have hshape := slashCreateMsg_shape a ps
  have hnod : divider
      ∉ buildVoteOptions ps (if titleOf ps = ps.getD 0 [] then 1 else 2)
        ++ [controlMenu] := by
    intro hc
    rcases List.mem_append.1 hc with hc' | hc'
    · unfold buildVoteOptions at hc'
      obtain ⟨es, _, he⟩ := List.mem_map.1 hc'
      cases he
    · exact absurd (List.mem_singleton.1 hc') (by decide)
  have hdiv : getDividerId (slashCreateMsg a ps)
      = ((buildVoteOptions ps (if titleOf ps = ps.getD 0 [] then 1 else 2)
          ++ [controlMenu]).length : Int) + 2 := by
    rw [hshape]
    have h0 : getDividerId ([divider] : List KnownBlock) = 0 := by decide
    have h1 : getDividerId
        ((buildVoteOptions ps (if titleOf ps = ps.getD 0 [] then 1 else 2)
          ++ [controlMenu]) ++ [divider])
        = ((buildVoteOptions ps (if titleOf ps = ps.getD 0 [] then 1 else 2)
            ++ [controlMenu]).length : Int) := by
      rw [getDividerId_append_right _ (by rw [h0]), h0]
      omega
    have hge1 : 0 ≤ getDividerId
        ((buildVoteOptions ps (if titleOf ps = ps.getD 0 [] then 1 else 2)
          ++ [controlMenu]) ++ [divider]) := by
      rw [h1]
      omega
    have hctx : getDividerId (contextBlock (str "Asked by: " ++ a)
          :: ((buildVoteOptions ps (if titleOf ps = ps.getD 0 [] then 1 else 2)
            ++ [controlMenu]) ++ [divider]))
        = ((buildVoteOptions ps (if titleOf ps = ps.getD 0 [] then 1 else 2)
            ++ [controlMenu]).length : Int) + 1 := by
      rw [getDividerId_cons_of_pos _ hge1, h1]
    rw [getDividerId_cons_of_pos _ (by rw [hctx]; omega), hctx]
    omega
  have hlen : ((slashCreateMsg a ps).length : Int)
      = ((buildVoteOptions ps (if titleOf ps = ps.getD 0 [] then 1 else 2)
          ++ [controlMenu]).length : Int) + 3 := by
    rw [hshape]
    simp only [List.length_cons, List.length_append, List.length_nil]
    push_cast
    omega
  have hguard : ¬ (((slashCreateMsg a ps).length : Int) - 1
      ≠ getDividerId (slashCreateMsg a ps)) := by
    rw [hdiv, hlen]
    omega
  have hhead : (slashCreateMsg a ps).head? = some (sectionBlock (titleOf ps)) := by
    rw [hshape]
    rfl
  simp [decode, hhead, sectionText, hguard]

theorem titleOf_flags (ps : List JStr)
    (hm : ¬ (str "(Multiple Answers)") <:+: questionLine ps)
    (ha : ¬ (str "(Anonymous)") <:+: questionLine ps) :
    jsIncludes (titleOf ps) (str "(Multiple Answers)") = cfgMultiple ps
      ∧ jsIncludes (titleOf ps) (str "(Anonymous)") = cfgAnon ps := by
  unfold titleOf
  by_cases hf : flagCase ps = true
  · rw [if_pos hf]
    by_cases hcm : cfgMultiple ps = true <;> by_cases hca : cfgAnon ps = true
    · rw [if_pos hcm, if_pos hca, hcm, hca]
      constructor
      · apply decide_eq_true
        refine ⟨questionLine ps ++ str " *",
          str "* " ++ str " *(Anonymous)* ", ?_⟩
        simp only [List.append_assoc]
        exact congrArg _ (by decide)
      · apply decide_eq_true
        refine ⟨(questionLine ps ++ str " *(Multiple Answers)* ") ++ str " *",
          str "* ", ?_⟩
        simp only [List.append_assoc]
        exact congrArg _ (congrArg _ (by decide))
    · rw [if_pos hcm, if_neg hca, hcm,
        show cfgAnon ps = false from by simpa using hca, List.append_nil]
      constructor
      · apply decide_eq_true
        refine ⟨questionLine ps ++ str " *", str "* ", ?_⟩
        simp only [List.append_assoc]
        exact congrArg _ (by decide)
      · apply decide_eq_false
        exact not_infix_append ha (by decide) (by decide)
    · rw [if_neg hcm, if_pos hca, hca,
        show cfgMultiple ps = false from by simpa using hcm, List.append_nil]
      constructor
      · apply decide_eq_false
        exact not_infix_append hm (by decide) (by decide)
      · apply decide_eq_true
        refine ⟨questionLine ps ++ str " *", str "* ", ?_⟩
        simp only [List.append_assoc]
        exact congrArg _ (by decide)
    · rw [if_neg hcm, if_neg hca,
        show cfgMultiple ps = false from by simpa using hcm,
        show cfgAnon ps = false from by simpa using hca,
        List.append_nil, List.append_nil]
      exact ⟨decide_eq_false hm, decide_eq_false ha⟩
  · rw [if_neg (by simpa using hf)]
    have hff : flagCase ps = false := by simpa using hf
    rw [show cfgMultiple ps = false from by simp [cfgMultiple, hff],
      show cfgAnon ps = false from by simp [cfgAnon, hff]]
    exact ⟨decide_eq_false hm, decide_eq_false ha⟩

/-- Counterexample to claim C1: a question line that itself contains
the substring `(Multiple Answers)` makes the decoded multiple flag true
although no flag token was given. -/
theorem c1_counterexample :
    (∀ tok ∈ ((str "x (Multiple Answers)").splitOn ' '),
        jsToLower tok ≠ str "multiple" ∧ jsToLower tok ≠ str "anon")
      ∧ (slashCreate (str "<@U1>") [str "x (Multiple Answers)", str "A"]).map
          Poll.multiple = some true := by decide

/-- Claim C1 as amended: provided the question line does not itself
contain the marker substrings `(Multiple Answers)` / `(Anonymous)`,
decoding the block sequence built by `slashCreate` recovers the
multiple and anonymous flags exactly as configured by the flag tokens
of line 0, and the locked flag of a freshly created poll is false. -/
theorem c1_roundtrip_amended (author : JStr) (ps : List JStr)
    (hm : ¬ (str "(Multiple Answers)") <:+: questionLine ps)
    (ha : ¬ (str "(Anonymous)") <:+: questionLine ps) :
    slashCreate author ps
      = some ⟨slashCreateMsg author ps, cfgMultiple ps, cfgAnon ps, false⟩ := by
  unfold slashCreate
  rw [decode_slashCreateMsg author ps]
  obtain ⟨h1, h2⟩ := titleOf_flags ps hm ha
  rw [h1, h2]

/-- Witness for the amended C1 at the lunch parameter list. -/
theorem c1_roundtrip_amended_witness :
    ¬ (str "(Multiple Answers)")
        <:+: questionLine [str "multiple", str "Lunch?", str "Pizza"]
      ∧ ¬ (str "(Anonymous)")
          <:+: questionLine [str "multiple", str "Lunch?", str "Pizza"]
      ∧ slashCreate (str "<@U1>") [str "multiple", str "Lunch?", str "Pizza"]
        = some ⟨slashCreateMsg (str "<@U1>") [str "multiple", str "Lunch?", str "Pizza"],
            cfgMultiple [str "multiple", str "Lunch?", str "Pizza"],
            cfgAnon [str "multiple", str "Lunch?", str "Pizza"], false⟩ :=
  ⟨by decide, by decide,
   c1_roundtrip_amended (str "<@U1>") [str "multiple", str "Lunch?", str "Pizza"]
     (by decide) (by decide)⟩

end SlackPoll
